import Mathlib

/-!
# freeproxy-go: a verification development

A shallow embedding of the Go package `freeproxy` (files `query.go`, `error.go`,
`proxy.go`, `client.go`) together with models of the parts of the Go standard
library the package calls (`net/url`, `strconv`, `fmt`, `encoding/json`,
`net/http`).

Conventions
* A Go `string` / `[]byte` is a list of bytes (`GoString`).
* A Go `int` is an `Int`; no arithmetic is done on it, so no wrap-around occurs.
* A Go pointer that may be `nil` is an `Option`.
* A Go function that may panic returns `Option` (`none` is the panic); `Query`
  returns an `Outcome`, whose constructor `panic` stands for it.
-/

namespace FreeProxy

/-! ## Bytes and strings -/

/-- One byte of a Go string. -/
abbrev Byte := Fin 256

/-- Go strings are byte sequences; nothing forces them to be valid UTF-8. -/
abbrev GoString := List Byte

/-- The bytes of an ASCII literal of the source. -/
def lit (s : String) : GoString := s.data.map (fun c => Fin.ofNat c.toNat)

/-! ## error.go and Go error values -/

/-- Error represents an error response from the GetFreeProxy API (`error.go`). -/
structure Error where
  Message : GoString
deriving DecidableEq, Repr

/-- A value of Go's interface type `error`, by dynamic type:
`apiError` is a `*freeproxy.Error`, `wrapError` is the `*fmt.wrapError` that
`fmt.Errorf` returns for a format with one `%w`, `lib` is an error of a type defined
by the standard library (`typ` names the type, `detail` is what the error is about). -/
inductive GoError where
  | apiError (e : Error)
  | wrapError (msg : GoString) (err : GoError)
  | lib (typ : String) (detail : GoString)
deriving DecidableEq, Repr

/-- The method `Error() string`. For `*Error` it is `error.go`: the message. For a
wrapped error it is the message composed by `fmt.Errorf`. The text of a library error
is not modelled: `render` stands for it. -/
def GoError.Error (render : String → GoString → GoString) : GoError → GoString
  | .apiError e => e.Message
  | .wrapError msg _ => msg
  | .lib typ detail => render typ detail

/-- The type assertion `err.(*Error)`: it succeeds on the dynamic type `*Error` only
(a type assertion does not look through wrapped errors). -/
def GoError.asAPIError : GoError → Option FreeProxy.Error
  | .apiError e => some e
  | _ => none

/-- Tells whether the dynamic type of the error is `*Error`. -/
def GoError.isAPIError (e : GoError) : Bool := e.asAPIError.isSome

/-! ## query.go -/

/-- QueryParams holds the query parameters for a Query request; each field is a
pointer in the source, `none` is the nil pointer. -/
structure QueryParams where
  Country : Option GoString
  Protocol : Option GoString
  Page : Option Int
deriving DecidableEq, Repr

/-- QueryOption is a function that modifies the query parameters (the source mutates
through a pointer, here the new value is returned). -/
abbrev QueryOption := QueryParams → QueryParams

/-- WithCountry sets the country filter. -/
def WithCountry (country : GoString) : QueryOption :=
  fun qp => { qp with Country := some country }

/-- WithProtocol sets the protocol filter. -/
def WithProtocol (protocol : GoString) : QueryOption :=
  fun qp => { qp with Protocol := some protocol }

/-- WithPage sets the page number. -/
def WithPage (page : Int) : QueryOption :=
  fun qp => { qp with Page := some page }

/-- The zero value `&QueryParams{}`: three nil pointers. -/
def QueryParams.zero : QueryParams := ⟨none, none, none⟩

/-- The loop `for _, opt := range options { opt(params) }` of `Client.Query`. -/
def applyOptions (options : List QueryOption) (params : QueryParams) : QueryParams :=
  options.foldl (fun p opt => opt p) params

/-- A syntactic description of an option built from one of the three constructors. -/
inductive OptionSpec where
  | country (c : GoString)
  | protocol (p : GoString)
  | page (n : Int)
deriving DecidableEq, Repr

/-- The option a description stands for. -/
def OptionSpec.toOption : OptionSpec → QueryOption
  | .country c => WithCountry c
  | .protocol p => WithProtocol p
  | .page n => WithPage n

/-- The country carried by the last option of the list that targets the country field. -/
def lastCountry : List OptionSpec → Option GoString
  | [] => none
  | o :: rest =>
    match lastCountry rest with
    | some c => some c
    | none => match o with
      | .country c => some c
      | _ => none

/-- The protocol carried by the last option of the list that targets the protocol field. -/
def lastProtocol : List OptionSpec → Option GoString
  | [] => none
  | o :: rest =>
    match lastProtocol rest with
    | some p => some p
    | none => match o with
      | .protocol p => some p
      | _ => none

/-- The page carried by the last option of the list that targets the page field. -/
def lastPage : List OptionSpec → Option Int
  | [] => none
  | o :: rest =>
    match lastPage rest with
    | some n => some n
    | none => match o with
      | .page n => some n
      | _ => none

/-! ## Model of `strings` helpers (single-byte separators) -/

/-- Go `strings.Cut(s, sep)` for a one-byte separator: the text before the first
`sep`, the text after it, and whether `sep` was found. -/
def cut (sep : Byte) : GoString → GoString × GoString × Bool
  | [] => ([], [], false)
  | c :: rest =>
    if c = sep then ([], rest, true)
    else
      let r := cut sep rest
      (c :: r.1, r.2.1, r.2.2)

/-- Go `strings.HasPrefix`. -/
def hasPrefix : GoString → GoString → Bool
  | _, [] => true
  | [], _ :: _ => false
  | c :: s, d :: p => c = d && hasPrefix s p

/-- Go `strings.HasSuffix`. -/
def hasSuffix (s suffix : GoString) : Bool := hasPrefix s.reverse suffix.reverse

/-- Go `strings.Index(s, sub)`, `none` standing for -1. -/
def indexOf (sub : GoString) : GoString → Option Nat
  | [] => if sub = [] then some 0 else none
  | c :: rest =>
    if hasPrefix (c :: rest) sub then some 0
    else (indexOf sub rest).map (· + 1)

/-- Go `strings.LastIndex(s, sep)` for a one-byte separator, `none` standing for -1. -/
def lastIndexByte (sep : Byte) : GoString → Option Nat
  | [] => none
  | c :: rest =>
    match lastIndexByte sep rest with
    | some i => some (i + 1)
    | none => if c = sep then some 0 else none

/-! ## Model of Go's `net/url` -/

/-- The encoding modes of `net/url`. -/
inductive Encoding where
  | encodePath
  | encodePathSegment
  | encodeHost
  | encodeZone
  | encodeUserPassword
  | encodeQueryComponent
  | encodeFragment
deriving DecidableEq, Repr

/-- ASCII letters and digits. -/
def isAlnum (c : Byte) : Bool :=
  (97 ≤ c.val && c.val ≤ 122) || (65 ≤ c.val && c.val ≤ 90) || (48 ≤ c.val && c.val ≤ 57)

/-- Go `url.shouldEscape`: whether the byte must be escaped in the given mode. -/
def shouldEscape (c : Byte) (mode : Encoding) : Bool :=
  if isAlnum c then false
  else if (mode = .encodeHost || mode = .encodeZone)
      && (lit "!$&'()*+,;=:[]<>\"").contains c then false
  else if (lit "-_.~").contains c then false
  else if (lit "$&+,/:;=?@").contains c
      && (mode = .encodePath || mode = .encodePathSegment || mode = .encodeUserPassword
          || mode = .encodeQueryComponent || mode = .encodeFragment) then
    match mode with
    | .encodePath => c = 63
    | .encodePathSegment => c = 47 || c = 59 || c = 44 || c = 63
    | .encodeUserPassword => c = 64 || c = 47 || c = 63 || c = 58
    | .encodeQueryComponent => true
    | _ => false
  else if mode = .encodeFragment && (lit "!()*").contains c then false
  else true

/-- The table `upperhex = "0123456789ABCDEF"` indexed by a nibble. -/
def upperhex (n : Nat) : Byte :=
  if n < 10 then Fin.ofNat (48 + n) else Fin.ofNat (55 + n)

/-- Go `url.ishex`. -/
def ishex (c : Byte) : Bool :=
  (48 ≤ c.val && c.val ≤ 57) || (97 ≤ c.val && c.val ≤ 102) || (65 ≤ c.val && c.val ≤ 70)

/-- Go `url.unhex`. -/
def unhex (c : Byte) : Nat :=
  if 48 ≤ c.val && c.val ≤ 57 then c.val - 48
  else if 97 ≤ c.val && c.val ≤ 102 then c.val - 97 + 10
  else if 65 ≤ c.val && c.val ≤ 70 then c.val - 65 + 10
  else 0

/-- Go `url.escape`: a space becomes `+` in a query component, every other byte that
must be escaped becomes `%XX` (upper-case hex), the rest is copied. (The source counts
first and returns early when nothing or only spaces need rewriting; those paths produce
the same bytes as the general loop modelled here.) -/
def escape (s : GoString) (mode : Encoding) : GoString :=
  s.flatMap fun c =>
    if c = 32 && mode = .encodeQueryComponent then [43]
    else if shouldEscape c mode then [37, upperhex (c.val / 16), upperhex (c.val % 16)]
    else [c]

/-- Go `url.QueryEscape`. -/
def QueryEscape (s : GoString) : GoString := escape s .encodeQueryComponent

/-- Go `url.unescape`: the validation pass and the decoding pass of the source in one
traversal. A `%` must be followed by two hex digits; in host mode only `%25` and
escapes of non-ASCII bytes are allowed and ASCII bytes that would need escaping are
rejected; `+` decodes to a space in a query component. -/
def unescape (mode : Encoding) : GoString → Except GoError GoString
  | [] => .ok []
  | c :: rest =>
    if c = 37 then
      match rest with
      | a :: b :: rest2 =>
        if !(ishex a && ishex b) then .error (.lib "url.EscapeError" ((c :: rest).take 3))
        else if mode = .encodeHost && unhex a < 8 && !(a = 50 && b = 53) then
          .error (.lib "url.EscapeError" [c, a, b])
        else if mode = .encodeZone && !(a = 50 && b = 53)
            && unhex a * 16 + unhex b ≠ 32
            && shouldEscape (Fin.ofNat (unhex a * 16 + unhex b)) .encodeHost then
          .error (.lib "url.EscapeError" [c, a, b])
        else
          match unescape mode rest2 with
          | .ok t => .ok (Fin.ofNat (unhex a * 16 + unhex b) :: t)
          | .error e => .error e
      | _ => .error (.lib "url.EscapeError" ((c :: rest).take 3))
    else if c = 43 then
      match unescape mode rest with
      | .ok t => .ok ((if mode = .encodeQueryComponent then 32 else 43) :: t)
      | .error e => .error e
    else if (mode = .encodeHost || mode = .encodeZone) && c.val < 128
        && shouldEscape c .encodeHost then
      .error (.lib "url.InvalidHostError" [c])
    else
      match unescape mode rest with
      | .ok t => .ok (c :: t)
      | .error e => .error e

/-- Go `url.QueryUnescape`. -/
def QueryUnescape (s : GoString) : Except GoError GoString := unescape .encodeQueryComponent s

/-- Go `url.Values`, a `map[string][]string`, as an association list with distinct
keys (the order of the entries carries no meaning). -/
abbrev Values := List (GoString × List GoString)

/-- The map lookup `v[key]` (nil, here `[]`, for a missing key). -/
def Values.get (v : Values) (key : GoString) : List GoString :=
  match v.find? (fun e => e.1 = key) with
  | some e => e.2
  | none => []

/-- Go `Values.Add`: `v[key] = append(v[key], value)`. -/
def Values.Add : Values → GoString → GoString → Values
  | [], key, value => [(key, [value])]
  | (k, vs) :: rest, key, value =>
    if k = key then (k, vs ++ [value]) :: rest
    else (k, vs) :: Values.Add rest key value

/-- Byte-wise lexicographic order, the order of Go's `<` on strings. -/
def strLe : GoString → GoString → Bool
  | [], _ => true
  | _ :: _, [] => false
  | a :: s, b :: t => a.val < b.val || (a = b && strLe s t)

/-- Insertion of an entry into a list of entries sorted by key. -/
def insertByKey (e : GoString × List GoString) : Values → Values
  | [] => [e]
  | f :: rest => if strLe e.1 f.1 then e :: f :: rest else f :: insertByKey e rest

/-- The entries of the map in the order of `slices.Sort(keys)`. -/
def sortByKey (v : Values) : Values := v.foldr insertByKey []

/-- Go `Values.Encode`: `key=value` pairs, both query-escaped, joined by `&`, keys in
sorted order and the values of one key in their order. -/
def Values.Encode (v : Values) : GoString :=
  let pairs := (sortByKey v).flatMap fun e =>
    e.2.map fun value => QueryEscape e.1 ++ [61] ++ QueryEscape value
  (pairs.intersperse [38]).flatten

/-- The segments of a query between `&` separators, as the loop of `url.parseQuery`
takes them off one by one with `strings.Cut(query, "&")`. -/
def splitAmp : GoString → List GoString
  | [] => []
  | c :: rest =>
    if c = 38 then [] :: splitAmp rest
    else
      match splitAmp rest with
      | [] => [[c]]
      | seg :: segs => (c :: seg) :: segs

/-- One round of the loop of Go `url.parseQuery` on one segment: the map after the
round and the error recorded so far (the first one is kept, except that a semicolon
always overwrites it, as in the source). -/
def parseQueryStep (st : Values × Option GoError) (key : GoString) : Values × Option GoError :=
  if key.contains 59 then
    (st.1, some (.lib "*errors.errorString" (lit "invalid semicolon separator in query")))
  else if key = [] then st
  else
    let kv := cut 61 key
    match QueryUnescape kv.1 with
    | .error e1 => (st.1, if st.2.isNone then some e1 else st.2)
    | .ok k =>
      match QueryUnescape kv.2.1 with
      | .error e1 => (st.1, if st.2.isNone then some e1 else st.2)
      | .ok value => (Values.Add st.1 k value, st.2)

/-- Go `url.ParseQuery`: the map is always returned, with the first error met. -/
def ParseQuery (query : GoString) : Values × Option GoError :=
  (splitAmp query).foldl parseQueryStep ([], none)

/-- Go `url.Userinfo`. -/
structure Userinfo where
  username : GoString
  password : GoString
  passwordSet : Bool
deriving DecidableEq, Repr

/-- Go `url.URL`. -/
structure URL where
  Scheme : GoString
  Opaque : GoString
  User : Option Userinfo
  Host : GoString
  Path : GoString
  RawPath : GoString
  OmitHost : Bool
  ForceQuery : Bool
  RawQuery : GoString
  Fragment : GoString
  RawFragment : GoString
deriving DecidableEq, Repr

/-- The zero value `new(URL)`. -/
def URL.zero : URL := ⟨[], [], none, [], [], [], false, false, [], [], []⟩

/-- The loop of Go `url.getScheme` from position `acc.length` on; `acc` is the text
already scanned. -/
def getSchemeFrom (rawURL : GoString) : GoString → GoString → Except GoError (GoString × GoString)
  | _, [] => .ok ([], rawURL)
  | acc, c :: rest =>
    if (97 ≤ c.val && c.val ≤ 122) || (65 ≤ c.val && c.val ≤ 90) then
      getSchemeFrom rawURL (acc ++ [c]) rest
    else if (48 ≤ c.val && c.val ≤ 57) || c = 43 || c = 45 || c = 46 then
      if acc = [] then .ok ([], rawURL) else getSchemeFrom rawURL (acc ++ [c]) rest
    else if c = 58 then
      if acc = [] then .error (.lib "*errors.errorString" (lit "missing protocol scheme"))
      else .ok (acc, rest)
    else .ok ([], rawURL)

/-- Go `url.getScheme`: the scheme before the first colon and the rest, or an empty
scheme and the whole text. -/
def getScheme (rawURL : GoString) : Except GoError (GoString × GoString) :=
  getSchemeFrom rawURL [] rawURL

/-- Go `strings.ToLower` on ASCII text (a scheme holds ASCII only). -/
def toLowerASCII (s : GoString) : GoString :=
  s.map fun c => if 65 ≤ c.val && c.val ≤ 90 then Fin.ofNat (c.val + 32) else c

/-- Go `url.stringContainsCTLByte`. -/
def stringContainsCTLByte (s : GoString) : Bool := s.any fun b => b.val < 32 || b.val = 127

/-- Go `url.validOptionalPort`. -/
def validOptionalPort (port : GoString) : Bool :=
  match port with
  | [] => true
  | c :: rest => c = 58 && rest.all fun b => 48 ≤ b.val && b.val ≤ 57

/-- Go `url.validUserinfo`. -/
def validUserinfo (s : GoString) : Bool :=
  s.all fun r => isAlnum r || (lit "-._:~!$&'()*+,;=%@").contains r

/-- Go `url.parseHost`. -/
def parseHost (host : GoString) : Except GoError GoString :=
  if hasPrefix host [91] then
    match lastIndexByte 93 host with
    | none => .error (.lib "*errors.errorString" (lit "missing ']' in host"))
    | some i =>
      if !validOptionalPort (host.drop (i + 1)) then
        .error (.lib "*fmt.wrapError" (host.drop (i + 1)))
      else
        match indexOf (lit "%25") (host.take i) with
        | some zone =>
          match unescape .encodeHost (host.take zone) with
          | .error e => .error e
          | .ok host1 =>
            match unescape .encodeZone ((host.take i).drop zone) with
            | .error e => .error e
            | .ok host2 =>
              match unescape .encodeHost (host.drop i) with
              | .error e => .error e
              | .ok host3 => .ok (host1 ++ host2 ++ host3)
        | none => unescape .encodeHost host
  else
    match lastIndexByte 58 host with
    | some i =>
      if !validOptionalPort (host.drop i) then .error (.lib "*fmt.wrapError" (host.drop i))
      else unescape .encodeHost host
    | none => unescape .encodeHost host

/-- Go `url.parseAuthority`. -/
def parseAuthority (authority : GoString) : Except GoError (Option Userinfo × GoString) :=
  match lastIndexByte 64 authority with
  | none =>
    match parseHost authority with
    | .error e => .error e
    | .ok host => .ok (none, host)
  | some i =>
    match parseHost (authority.drop (i + 1)) with
    | .error e => .error e
    | .ok host =>
      let userinfo := authority.take i
      if !validUserinfo userinfo then
        .error (.lib "*errors.errorString" (lit "net/url: invalid userinfo"))
      else if !userinfo.contains 58 then
        match unescape .encodeUserPassword userinfo with
        | .error e => .error e
        | .ok u => .ok (some ⟨u, [], false⟩, host)
      else
        let up := cut 58 userinfo
        match unescape .encodeUserPassword up.1 with
        | .error e => .error e
        | .ok username =>
          match unescape .encodeUserPassword up.2.1 with
          | .error e => .error e
          | .ok password => .ok (some ⟨username, password, true⟩, host)

/-- Go `URL.setPath`. -/
def URL.setPath (u : URL) (p : GoString) : Except GoError URL :=
  match unescape .encodePath p with
  | .error e => .error e
  | .ok path =>
    .ok { u with Path := path, RawPath := if p = escape path .encodePath then [] else p }

/-- Go `URL.setFragment`. -/
def URL.setFragment (u : URL) (f : GoString) : Except GoError URL :=
  match unescape .encodeFragment f with
  | .error e => .error e
  | .ok frag =>
    .ok { u with Fragment := frag,
                 RawFragment := if f = escape frag .encodeFragment then [] else f }

/-- The second half of Go `url.parse(rawURL, false)`: what is left after the scheme and
the query have been split off is an opaque text, or an authority and a path, or a
path. -/
def parseHier (url : URL) (rest : GoString) : Except GoError URL :=
  if !hasPrefix rest [47] && url.Scheme ≠ [] then .ok { url with Opaque := rest }
  else if !hasPrefix rest [47] && ((cut 47 rest).1).contains 58 then
    .error (.lib "*errors.errorString" (lit "first path segment in URL cannot contain colon"))
  else if (url.Scheme ≠ [] || !hasPrefix rest [47, 47, 47]) && hasPrefix rest [47, 47] then
    let auth0 := rest.drop 2
    let authority := (cut 47 auth0).1
    let rest2 : GoString := if (cut 47 auth0).2.2 then 47 :: (cut 47 auth0).2.1 else []
    match parseAuthority authority with
    | .error e => .error e
    | .ok (user, host) => URL.setPath { url with User := user, Host := host } rest2
  else if url.Scheme ≠ [] && hasPrefix rest [47] then
    URL.setPath { url with OmitHost := true } rest
  else URL.setPath url rest

/-- Go `url.parse(rawURL, viaRequest)` for `viaRequest = false`, the only way
`url.Parse` calls it: control bytes are refused, the scheme is split off and put in
lower case, a lone trailing `?` sets `ForceQuery`, otherwise the query is what follows
the first `?`. -/
def parseNoFragment (rawURL : GoString) : Except GoError URL :=
  if stringContainsCTLByte rawURL then
    .error (.lib "*errors.errorString" (lit "net/url: invalid control character in URL"))
  else if rawURL = [42] then .ok { URL.zero with Path := [42] }
  else
    match getScheme rawURL with
    | .error e => .error e
    | .ok (scheme, rest0) =>
      if hasSuffix rest0 [63] && rest0.count 63 = 1 then
        parseHier { URL.zero with Scheme := toLowerASCII scheme, ForceQuery := true }
          rest0.dropLast
      else
        parseHier { URL.zero with Scheme := toLowerASCII scheme, RawQuery := (cut 63 rest0).2.1 }
          (cut 63 rest0).1

/-- Go `url.Parse`: the fragment is cut off at the first `#`, the rest is parsed, and
the fragment is set when it is not empty. (The source wraps every failure in a
`*url.Error`; the model keeps the cause.) -/
def Parse (rawURL : GoString) : Except GoError URL :=
  match parseNoFragment (cut 35 rawURL).1 with
  | .error e => .error e
  | .ok url =>
    if (cut 35 rawURL).2.1 = [] then .ok url
    else URL.setFragment url (cut 35 rawURL).2.1

/-- Go `URL.Query`: `ParseQuery(u.RawQuery)` with the error dropped. -/
def URL.Query (u : URL) : Values := (ParseQuery u.RawQuery).1

/-- Go `url.validEncoded`. -/
def validEncoded (s : GoString) (mode : Encoding) : Bool :=
  s.all fun c => (lit "!$&'()*+,;=:@[]%").contains c || !shouldEscape c mode

/-- The test `p, err := unescape(raw, mode); err == nil && p == plain` of
`EscapedPath` and `EscapedFragment`. -/
def unescapesTo (mode : Encoding) (raw plain : GoString) : Bool :=
  match unescape mode raw with
  | .ok p => p = plain
  | .error _ => false

/-- Go `URL.EscapedPath`. -/
def URL.EscapedPath (u : URL) : GoString :=
  if u.RawPath ≠ [] && validEncoded u.RawPath .encodePath
      && unescapesTo .encodePath u.RawPath u.Path then u.RawPath
  else if u.Path = [42] then [42]
  else escape u.Path .encodePath

/-- Go `URL.EscapedFragment`. -/
def URL.EscapedFragment (u : URL) : GoString :=
  if u.RawFragment ≠ [] && validEncoded u.RawFragment .encodeFragment
      && unescapesTo .encodeFragment u.RawFragment u.Fragment then u.RawFragment
  else escape u.Fragment .encodeFragment

/-- Go `Userinfo.String`. -/
def Userinfo.String (u : Userinfo) : GoString :=
  escape u.username .encodeUserPassword
    ++ (if u.passwordSet then 58 :: escape u.password .encodeUserPassword else [])

/-- The part of Go `URL.String` written for a URL that is not opaque: authority and
path. -/
def URL.hierPart (u : URL) : GoString :=
  let auth : GoString :=
    if u.Scheme ≠ [] || u.Host ≠ [] || u.User.isSome then
      if u.OmitHost && u.Host = [] && u.User.isNone then []
      else
        (if u.Host ≠ [] || u.Path ≠ [] || u.User.isSome then [47, 47] else [])
          ++ (match u.User with
              | some ui => ui.String ++ [64]
              | none => [])
          ++ (if u.Host ≠ [] then escape u.Host .encodeHost else [])
    else []
  let path := u.EscapedPath
  let slash : GoString :=
    if path ≠ [] && !hasPrefix path [47] && u.Host ≠ [] then [47] else []
  let dot : GoString :=
    if u.Scheme = [] && auth = [] && slash = [] && ((cut 47 path).1).contains 58
    then [46, 47] else []
  auth ++ slash ++ dot ++ path

/-- Go `URL.String`. -/
def URL.String (u : URL) : GoString :=
  (if u.Scheme ≠ [] then u.Scheme ++ [58] else [])
    ++ (if u.Opaque ≠ [] then u.Opaque else u.hierPart)
    ++ (if u.ForceQuery || u.RawQuery ≠ [] then 63 :: u.RawQuery else [])
    ++ (if u.Fragment ≠ [] then 35 :: u.EscapedFragment else [])

/-! ## Model of Go's `strconv` and `fmt` (decimal integers) -/

/-- The decimal digits of `n`, least significant first; `fuel` bounds their number. -/
def digitsRev : Nat → Nat → GoString
  | 0, _ => []
  | fuel + 1, n =>
    Fin.ofNat (48 + n % 10) :: (if n / 10 = 0 then [] else digitsRev fuel (n / 10))

/-- The decimal text of a natural number (`strconv.FormatUint(n, 10)`). -/
def formatNat (n : Nat) : GoString := (digitsRev (n + 1) n).reverse

/-- Go `strconv.Itoa`, also what `fmt.Sprintf` writes for the verb `%d` on an `int`. -/
def Itoa (i : Int) : GoString :=
  if i < 0 then 45 :: formatNat i.natAbs else formatNat i.natAbs

/-- The value of a run of decimal digits, `none` when a byte is not a digit or the run
is empty. -/
def parseDigits : Nat → GoString → Option Nat
  | _, [] => none
  | acc, [c] => if 48 ≤ c.val && c.val ≤ 57 then some (acc * 10 + (c.val - 48)) else none
  | acc, c :: d :: rest =>
    if 48 ≤ c.val && c.val ≤ 57 then parseDigits (acc * 10 + (c.val - 48)) (d :: rest)
    else none

/-- Go `strconv.ParseInt(s, 10, 64)`: an optional sign and decimal digits, within the
range of `int64`; `none` is a syntax or range error. -/
def ParseInt (s : GoString) : Option Int :=
  match s with
  | [] => none
  | c :: rest =>
    if c = 45 then
      match parseDigits 0 rest with
      | some n => if n ≤ 2 ^ 63 then some (-(n : Int)) else none
      | none => none
    else if c = 43 then
      match parseDigits 0 rest with
      | some n => if n < 2 ^ 63 then some (n : Int) else none
      | none => none
    else
      match parseDigits 0 (c :: rest) with
      | some n => if n < 2 ^ 63 then some (n : Int) else none
      | none => none

/-- A Go `float64`, by its IEEE-754 bit pattern. -/
structure Float64 where
  bits : Nat
deriving DecidableEq, Repr

/-- The parts of the standard library that are not modelled; they are a parameter of
everything that uses them. -/
structure Stdlib where
  /-- Go `strconv.ParseFloat(s, 64)`; `none` is an error. -/
  ParseFloat : GoString → Option Float64
  /-- The text `encoding/json` writes for a `float64`; `none` for NaN and the
  infinities, which `json.Marshal` refuses. -/
  FormatFloat : Float64 → Option GoString
  /-- The text `Error()` returns for an error of a library type. -/
  ErrorText : String → GoString → GoString

/-! ## Model of Go's `unicode/utf8` and `unicode/utf16` -/

/-- Go `utf8.RuneError`, U+FFFD. -/
def RuneError : Nat := 65533

/-- Tells whether the byte is a continuation byte in `lo..hi`. -/
def inRange (lo hi : Nat) (b : Byte) : Bool := lo ≤ b.val && b.val ≤ hi

/-- Go `utf8.DecodeRune`: the first rune of the text and its width in bytes; an
invalid or truncated encoding gives `(RuneError, 1)`, an empty text `(RuneError, 0)`.
Over-long forms, surrogates and values above U+10FFFF are invalid. -/
def DecodeRune : GoString → Nat × Nat
  | [] => (RuneError, 0)
  | p0 :: rest =>
    if p0.val < 128 then (p0.val, 1)
    else if p0.val < 194 then (RuneError, 1)
    else if p0.val < 224 then
      match rest with
      | b1 :: _ =>
        if inRange 128 191 b1 then ((p0.val - 192) * 64 + (b1.val - 128), 2)
        else (RuneError, 1)
      | _ => (RuneError, 1)
    else if p0.val < 240 then
      match rest with
      | b1 :: b2 :: _ =>
        if inRange (if p0.val = 224 then 160 else 128) (if p0.val = 237 then 159 else 191) b1
            && inRange 128 191 b2 then
          ((p0.val - 224) * 4096 + (b1.val - 128) * 64 + (b2.val - 128), 3)
        else (RuneError, 1)
      | _ => (RuneError, 1)
    else if p0.val < 245 then
      match rest with
      | b1 :: b2 :: b3 :: _ =>
        if inRange (if p0.val = 240 then 144 else 128) (if p0.val = 244 then 143 else 191) b1
            && inRange 128 191 b2 && inRange 128 191 b3 then
          ((p0.val - 240) * 262144 + (b1.val - 128) * 4096 + (b2.val - 128) * 64
            + (b3.val - 128), 4)
        else (RuneError, 1)
      | _ => (RuneError, 1)
    else (RuneError, 1)

/-- Go `utf8.EncodeRune` (as `utf8.AppendRune(nil, r)`): surrogates and values above
U+10FFFF are written as U+FFFD. -/
def EncodeRune (r : Nat) : GoString :=
  if r < 128 then [Fin.ofNat r]
  else if r < 2048 then [Fin.ofNat (192 + r / 64), Fin.ofNat (128 + r % 64)]
  else if r > 1114111 || (55296 ≤ r && r ≤ 57343) then [239, 191, 189]
  else if r < 65536 then
    [Fin.ofNat (224 + r / 4096), Fin.ofNat (128 + r / 64 % 64), Fin.ofNat (128 + r % 64)]
  else
    [Fin.ofNat (240 + r / 262144), Fin.ofNat (128 + r / 4096 % 64),
     Fin.ofNat (128 + r / 64 % 64), Fin.ofNat (128 + r % 64)]

/-- Go `utf16.DecodeRune`: the code point of a surrogate pair, U+FFFD when the two
values are not a pair. -/
def utf16DecodeRune (r1 r2 : Nat) : Nat :=
  if 55296 ≤ r1 && r1 < 56320 && 56320 ≤ r2 && r2 < 57344 then
    (r1 - 55296) * 1024 + (r2 - 56320) + 65536
  else 65533

/-! ## Model of Go's `encoding/json`: syntax -/

/-- A JSON text as the scanner of `encoding/json` delimits it. Numbers and strings keep
their source text (`raw` is what stands between the quotes, escapes not yet decoded);
the decoder converts them when it stores them. -/
inductive JSON where
  | null
  | bool (b : Bool)
  | number (text : GoString)
  | string (raw : GoString)
  | array (elems : List JSON)
  | object (members : List (GoString × JSON))
deriving Repr

/-- The scanner's `maxNestingDepth`. -/
def maxNestingDepth : Nat := 10000

/-- Go `json.isSpace`: space, tab, carriage return, line feed are skipped. -/
def skipWS : GoString → GoString
  | [] => []
  | c :: rest => if c = 32 || c = 9 || c = 13 || c = 10 then skipWS rest else c :: rest

/-- The result of the string scanner on a longer text, from its result on the rest:
the bytes `p` just scanned are put in front of the raw text. -/
def prependRaw (p : GoString) : Option (GoString × GoString) → Option (GoString × GoString)
  | some (raw, r) => some (p ++ raw, r)
  | none => none

/-- The scanner inside a string, after the opening quote: the raw text up to the
closing quote and what follows it. A backslash must be followed by one of
`"\/bfnrt` or by `u` and four hex digits; bytes below 0x20 are rejected; any other
byte is accepted (also invalid UTF-8). -/
def scanString : GoString → Option (GoString × GoString)
  | [] => none
  | c :: rest =>
    if c = 34 then some ([], rest)
    else if c = 92 then
      match rest with
      | [] => none
      | e :: rest2 =>
        if (lit "\"\\/bfnrt").contains e then prependRaw [c, e] (scanString rest2)
        else if e = 117 then
          match rest2 with
          | h1 :: h2 :: h3 :: h4 :: rest3 =>
            if ishex h1 && ishex h2 && ishex h3 && ishex h4 then
              prependRaw [c, e, h1, h2, h3, h4] (scanString rest3)
            else none
          | _ => none
        else none
    else if c.val < 32 then none
    else prependRaw [c] (scanString rest)

/-- The longest prefix of decimal digits and the rest. -/
def spanDigits : GoString → GoString × GoString
  | [] => ([], [])
  | c :: rest =>
    if 48 ≤ c.val && c.val ≤ 57 then ((c :: (spanDigits rest).1), (spanDigits rest).2)
    else ([], c :: rest)

/-- The scanner after the integer part and the fraction of a number: an optional
exponent `e`/`E`, optional sign, digits. `frac` is the text of the fraction already
scanned; the result is the text scanned after the integer part and the rest. -/
def scanExp (frac : GoString) (s : GoString) : Option (GoString × GoString) :=
  match s with
  | c :: rest =>
    if c = 101 || c = 69 then
      match rest with
      | d :: rest2 =>
        if d = 43 || d = 45 then
          if (spanDigits rest2).1 = [] then none
          else some (frac ++ c :: d :: (spanDigits rest2).1, (spanDigits rest2).2)
        else if (spanDigits rest).1 = [] then none
        else some (frac ++ c :: (spanDigits rest).1, (spanDigits rest).2)
      | [] => none
    else some (frac, s)
  | [] => some (frac, s)

/-- The scanner after the integer part of a number: an optional fraction `.digits`
and an optional exponent. Returns the text scanned and the rest. -/
def scanFracExp (s : GoString) : Option (GoString × GoString) :=
  match s with
  | c :: rest =>
    if c = 46 then
      if (spanDigits rest).1 = [] then none
      else scanExp (c :: (spanDigits rest).1) (spanDigits rest).2
    else scanExp [] s
  | [] => scanExp [] s

/-- The scanner on a number without its sign: `0` or a digit `1..9` followed by
digits, then fraction and exponent. -/
def scanUnsigned : GoString → Option (GoString × GoString)
  | [] => none
  | c :: rest =>
    if c = 48 then
      match scanFracExp rest with
      | some (t, r) => some (c :: t, r)
      | none => none
    else if 49 ≤ c.val && c.val ≤ 57 then
      match scanFracExp (spanDigits rest).2 with
      | some (t, r) => some (c :: (spanDigits rest).1 ++ t, r)
      | none => none
    else none

/-- The scanner on a number: its text and the rest. -/
def scanNumber : GoString → Option (GoString × GoString)
  | [] => none
  | c :: rest =>
    if c = 45 then
      match scanUnsigned rest with
      | some (t, r) => some (c :: t, r)
      | none => none
    else scanUnsigned (c :: rest)

mutual
/-- One JSON value at the head of the text (no leading space) and the rest of the
text. `depth` is the number of arrays and objects that are open; opening one more than
`maxNestingDepth` is an error, as in the scanner. `fuel` bounds the recursion. -/
def parseValue : Nat → Nat → GoString → Option (JSON × GoString)
  | 0, _, _ => none
  | fuel + 1, depth, s =>
    match s with
    | [] => none
    | c :: rest =>
      if c = 123 then
        if depth + 1 > maxNestingDepth then none
        else
          match skipWS rest with
          | [] => none
          | d :: rest2 =>
            if d = 125 then some (.object [], rest2)
            else
              match parseMembers fuel (depth + 1) (d :: rest2) with
              | some (ms, r) => some (.object ms, r)
              | none => none
      else if c = 91 then
        if depth + 1 > maxNestingDepth then none
        else
          match skipWS rest with
          | [] => none
          | d :: rest2 =>
            if d = 93 then some (.array [], rest2)
            else
              match parseElems fuel (depth + 1) (d :: rest2) with
              | some (vs, r) => some (.array vs, r)
              | none => none
      else if c = 34 then
        match scanString rest with
        | some (raw, r) => some (.string raw, r)
        | none => none
      else if c = 116 then
        if hasPrefix rest (lit "rue") then some (.bool true, rest.drop 3) else none
      else if c = 102 then
        if hasPrefix rest (lit "alse") then some (.bool false, rest.drop 4) else none
      else if c = 110 then
        if hasPrefix rest (lit "ull") then some (.null, rest.drop 3) else none
      else
        match scanNumber (c :: rest) with
        | some (t, r) => some (.number t, r)
        | none => none
/-- The elements of an array from the first one to the closing bracket. -/
def parseElems : Nat → Nat → GoString → Option (List JSON × GoString)
  | 0, _, _ => none
  | fuel + 1, depth, s =>
    match parseValue fuel depth s with
    | none => none
    | some (v, rest) =>
      match skipWS rest with
      | [] => none
      | d :: rest2 =>
        if d = 93 then some ([v], rest2)
        else if d = 44 then
          match parseElems fuel depth (skipWS rest2) with
          | some (vs, r) => some (v :: vs, r)
          | none => none
        else none
/-- The members of an object from the first key to the closing brace. -/
def parseMembers : Nat → Nat → GoString → Option (List (GoString × JSON) × GoString)
  | 0, _, _ => none
  | fuel + 1, depth, s =>
    match s with
    | [] => none
    | q :: rest =>
      if q = 34 then
        match scanString rest with
        | none => none
        | some (key, rest2) =>
          match skipWS rest2 with
          | [] => none
          | colon :: rest3 =>
            if colon = 58 then
              match parseValue fuel depth (skipWS rest3) with
              | none => none
              | some (v, rest4) =>
                match skipWS rest4 with
                | [] => none
                | d :: rest5 =>
                  if d = 125 then some ([(key, v)], rest5)
                  else if d = 44 then
                    match parseMembers fuel depth (skipWS rest5) with
                    | some (ms, r) => some ((key, v) :: ms, r)
                    | none => none
                  else none
            else none
      else none
end

/-- Go `json.checkValid` together with the delimiting of tokens: the whole text must be
one JSON value surrounded by optional white space. `none` is a `*json.SyntaxError`. -/
def parseJSON (data : GoString) : Option JSON :=
  match parseValue (2 * data.length + 2) 0 (skipWS data) with
  | some (v, rest) => if skipWS rest = [] then some v else none
  | none => none

/-- Go `json.getu4`: the number written by a `\uXXXX` escape at the head of the text,
`none` (the source returns -1) when the text does not start with such an escape. -/
def getu4 : GoString → Option Nat
  | b :: u :: h1 :: h2 :: h3 :: h4 :: _ =>
    if b = 92 && u = 117 && ishex h1 && ishex h2 && ishex h3 && ishex h4 then
      some (unhex h1 * 4096 + unhex h2 * 256 + unhex h3 * 16 + unhex h4)
    else none
  | _ => none

/-- The loop of Go `json.unquoteBytes` on the raw text of a string the scanner
accepted: escapes are decoded, a `\u` escape of a surrogate is joined with a following
`\u` escape when the two form a pair and is U+FFFD otherwise, and invalid UTF-8 is
replaced by U+FFFD. `fuel` bounds the number of rounds. (On text the scanner rejects
the source reports failure; that text never reaches the decoder, and the model stops
there.) -/
def unquoteFuel : Nat → GoString → GoString
  | 0, _ => []
  | _ + 1, [] => []
  | fuel + 1, c :: rest =>
    if c = 92 then
      match rest with
      | [] => []
      | e :: rest2 =>
        if e = 117 then
          match getu4 (c :: rest) with
          | none => []
          | some rr =>
            if 55296 ≤ rr && rr < 57344 then
              match getu4 (rest.drop 5) with
              | some rr1 =>
                if utf16DecodeRune rr rr1 ≠ 65533 then
                  EncodeRune (utf16DecodeRune rr rr1) ++ unquoteFuel fuel (rest.drop 11)
                else EncodeRune 65533 ++ unquoteFuel fuel (rest.drop 5)
              | none => EncodeRune 65533 ++ unquoteFuel fuel (rest.drop 5)
            else EncodeRune rr ++ unquoteFuel fuel (rest.drop 5)
        else if e = 98 then 8 :: unquoteFuel fuel rest2
        else if e = 102 then 12 :: unquoteFuel fuel rest2
        else if e = 110 then 10 :: unquoteFuel fuel rest2
        else if e = 114 then 13 :: unquoteFuel fuel rest2
        else if e = 116 then 9 :: unquoteFuel fuel rest2
        else e :: unquoteFuel fuel rest2
    else if c.val < 128 then c :: unquoteFuel fuel rest
    else
      EncodeRune (DecodeRune (c :: rest)).1
        ++ unquoteFuel fuel (rest.drop ((DecodeRune (c :: rest)).2 - 1))

/-- Go `json.unquoteBytes` on the raw text between the quotes. -/
def unquote (raw : GoString) : GoString := unquoteFuel raw.length raw

/-! ## proxy.go -/

/-- Proxy represents a single proxy entry from the GetFreeProxy API. -/
structure Proxy where
  ID : GoString
  Protocol : GoString
  IP : GoString
  Port : Int
  User : GoString
  Passwd : GoString
  CountryCode : GoString
  Region : GoString
  AsnNumber : GoString
  AsnName : GoString
  Anonymity : GoString
  Uptime : Int
  ResponseTime : Float64
  LastAliveAt : GoString
  ProxyUrl : GoString
  Https : Bool
  Google : Bool
deriving DecidableEq, Repr

/-- The zero value `Proxy{}`. -/
def Proxy.zero : Proxy :=
  ⟨[], [], [], 0, [], [], [], [], [], [], [], 0, ⟨0⟩, [], [], false, false⟩

/-- The fields of `Proxy`, in the order of the declaration. -/
inductive ProxyField where
  | ID | Protocol | IP | Port | User | Passwd | CountryCode | Region | AsnNumber
  | AsnName | Anonymity | Uptime | ResponseTime | LastAliveAt | ProxyUrl | Https | Google
deriving DecidableEq, Repr

/-- All fields, in the order of the declaration. -/
def ProxyField.all : List ProxyField :=
  [.ID, .Protocol, .IP, .Port, .User, .Passwd, .CountryCode, .Region, .AsnNumber,
   .AsnName, .Anonymity, .Uptime, .ResponseTime, .LastAliveAt, .ProxyUrl, .Https, .Google]

/-- The JSON key of a field, from its struct tag. -/
def ProxyField.key : ProxyField → GoString
  | .ID => lit "id"
  | .Protocol => lit "protocol"
  | .IP => lit "ip"
  | .Port => lit "port"
  | .User => lit "user"
  | .Passwd => lit "passwd"
  | .CountryCode => lit "countryCode"
  | .Region => lit "region"
  | .AsnNumber => lit "asnNumber"
  | .AsnName => lit "asnName"
  | .Anonymity => lit "anonymity"
  | .Uptime => lit "uptime"
  | .ResponseTime => lit "responseTime"
  | .LastAliveAt => lit "lastAliveAt"
  | .ProxyUrl => lit "proxyUrl"
  | .Https => lit "https"
  | .Google => lit "google"

/-! ## Model of Go's `encoding/json`: decoding -/

/-- The `*json.UnmarshalTypeError` whose field `Value` is the given description. -/
def typeError (value : GoString) : GoError := .lib "*json.UnmarshalTypeError" value

/-- The description `encoding/json` gives of a JSON value in an
`UnmarshalTypeError`. -/
def JSON.describe : JSON → GoString
  | .null => lit "null"
  | .bool _ => lit "bool"
  | .number _ => lit "number"
  | .string _ => lit "string"
  | .array _ => lit "array"
  | .object _ => lit "object"

/-- The decoder's `saveError`: the first error is kept. -/
def saveError (saved : Option GoError) (e : GoError) : Option GoError :=
  match saved with
  | some s => some s
  | none => some e

/-- Storing a JSON value into a Go `string`: a string is unquoted, `null` leaves the
value as it is, anything else is a type error and leaves the value as it is. -/
def storeString (old : GoString) (v : JSON) (saved : Option GoError) :
    GoString × Option GoError :=
  match v with
  | .string raw => (unquote raw, saved)
  | .null => (old, saved)
  | other => (old, saveError saved (typeError other.describe))

/-- Storing a JSON value into a Go `int`: the text of a number goes through
`strconv.ParseInt`, whose failure is a type error. -/
def storeInt (old : Int) (v : JSON) (saved : Option GoError) : Int × Option GoError :=
  match v with
  | .number text =>
    match ParseInt text with
    | some n => (n, saved)
    | none => (old, saveError saved (typeError (lit "number " ++ text)))
  | .null => (old, saved)
  | other => (old, saveError saved (typeError other.describe))

/-- Storing a JSON value into a Go `float64`: the text of a number goes through
`strconv.ParseFloat`, whose failure is a type error. -/
def storeFloat (lib : Stdlib) (old : Float64) (v : JSON) (saved : Option GoError) :
    Float64 × Option GoError :=
  match v with
  | .number text =>
    match lib.ParseFloat text with
    | some x => (x, saved)
    | none => (old, saveError saved (typeError (lit "number " ++ text)))
  | .null => (old, saved)
  | other => (old, saveError saved (typeError other.describe))

/-- Storing a JSON value into a Go `bool`. -/
def storeBool (old : Bool) (v : JSON) (saved : Option GoError) : Bool × Option GoError :=
  match v with
  | .bool b => (b, saved)
  | .null => (old, saved)
  | other => (old, saveError saved (typeError other.describe))

/-- One member of a JSON object stored into a `map[string]string`: the element starts
from the zero value, the JSON value is stored into it, and the element is written to
the map under the unquoted key (replacing an earlier entry of that key). -/
def storeMapMember (st : List (GoString × GoString) × Option GoError)
    (m : GoString × JSON) : List (GoString × GoString) × Option GoError :=
  let r := storeString [] m.2 st.2
  ((st.1.filter fun e => e.1 ≠ unquote m.1) ++ [(unquote m.1, r.1)], r.2)

/-- Go `json.Unmarshal(data, &m)` for a nil `m map[string]string`: the map (the empty
list also stands for the nil map) and the error. Invalid JSON is a syntax error and
nothing is stored; `null` leaves the map nil; an object fills the map; any other value
is a type error. -/
def unmarshalStringMap (data : GoString) : List (GoString × GoString) × Option GoError :=
  match parseJSON data with
  | none => ([], some (.lib "*json.SyntaxError" []))
  | some (.object members) => members.foldl storeMapMember ([], none)
  | some .null => ([], none)
  | some other => ([], some (typeError other.describe))

/-- The map access `v, ok := m[key]`. -/
def mapLookup (m : List (GoString × GoString)) (key : GoString) : Option GoString :=
  (m.find? fun e => e.1 = key).map (·.2)

/-- The smallest rune of the case-folding orbit of a rune, for the orbits that contain
an ASCII letter: a lower-case letter folds to its upper-case letter, U+017F (long s)
to `S` and U+212A (Kelvin sign) to `K`. -/
def foldRune (r : Nat) : Nat :=
  if 97 ≤ r && r ≤ 122 then r - 32
  else if r = 383 then 83
  else if r = 8490 then 75
  else r

/-- The case-insensitive comparison of an ASCII field name with a key, rune by rune
(Go `bytes.EqualFold`, which the decoder's folded-name index agrees with). -/
def equalFoldFuel : Nat → GoString → GoString → Bool
  | _, [], [] => true
  | fuel + 1, n :: name, k :: key =>
    foldRune (DecodeRune (k :: key)).1 = foldRune n.val
      && equalFoldFuel fuel name ((k :: key).drop (DecodeRune (k :: key)).2)
  | _, _, _ => false

/-- The field of `Proxy` a key of a JSON object selects: the field whose name is the
key, else the field whose name equals the key up to case, else none (the member is
skipped). -/
def ProxyField.find (key : GoString) : Option ProxyField :=
  match ProxyField.all.find? fun f => f.key = key with
  | some f => some f
  | none => ProxyField.all.find? fun f => equalFoldFuel key.length f.key key

/-- Storing a JSON value into one field of a `Proxy`. -/
def Proxy.store (lib : Stdlib) (p : Proxy) (f : ProxyField) (v : JSON)
    (saved : Option GoError) : Proxy × Option GoError :=
  match f with
  | .ID => ({ p with ID := (storeString p.ID v saved).1 }, (storeString p.ID v saved).2)
  | .Protocol =>
    ({ p with Protocol := (storeString p.Protocol v saved).1 }, (storeString p.Protocol v saved).2)
  | .IP => ({ p with IP := (storeString p.IP v saved).1 }, (storeString p.IP v saved).2)
  | .Port => ({ p with Port := (storeInt p.Port v saved).1 }, (storeInt p.Port v saved).2)
  | .User => ({ p with User := (storeString p.User v saved).1 }, (storeString p.User v saved).2)
  | .Passwd =>
    ({ p with Passwd := (storeString p.Passwd v saved).1 }, (storeString p.Passwd v saved).2)
  | .CountryCode =>
    ({ p with CountryCode := (storeString p.CountryCode v saved).1 },
     (storeString p.CountryCode v saved).2)
  | .Region =>
    ({ p with Region := (storeString p.Region v saved).1 }, (storeString p.Region v saved).2)
  | .AsnNumber =>
    ({ p with AsnNumber := (storeString p.AsnNumber v saved).1 },
     (storeString p.AsnNumber v saved).2)
  | .AsnName =>
    ({ p with AsnName := (storeString p.AsnName v saved).1 }, (storeString p.AsnName v saved).2)
  | .Anonymity =>
    ({ p with Anonymity := (storeString p.Anonymity v saved).1 },
     (storeString p.Anonymity v saved).2)
  | .Uptime => ({ p with Uptime := (storeInt p.Uptime v saved).1 }, (storeInt p.Uptime v saved).2)
  | .ResponseTime =>
    ({ p with ResponseTime := (storeFloat lib p.ResponseTime v saved).1 },
     (storeFloat lib p.ResponseTime v saved).2)
  | .LastAliveAt =>
    ({ p with LastAliveAt := (storeString p.LastAliveAt v saved).1 },
     (storeString p.LastAliveAt v saved).2)
  | .ProxyUrl =>
    ({ p with ProxyUrl := (storeString p.ProxyUrl v saved).1 },
     (storeString p.ProxyUrl v saved).2)
  | .Https => ({ p with Https := (storeBool p.Https v saved).1 }, (storeBool p.Https v saved).2)
  | .Google => ({ p with Google := (storeBool p.Google v saved).1 }, (storeBool p.Google v saved).2)

/-- One member of a JSON object stored into a `Proxy`: a key that selects no field is
skipped. -/
def storeProxyMember (lib : Stdlib) (st : Proxy × Option GoError) (m : GoString × JSON) :
    Proxy × Option GoError :=
  match ProxyField.find (unquote m.1) with
  | some f => Proxy.store lib st.1 f m.2 st.2
  | none => st

/-- Storing a JSON value into a zero `Proxy` element of the slice: an object fills the
fields its keys select, `null` changes nothing, anything else is a type error. -/
def storeProxy (lib : Stdlib) (v : JSON) (saved : Option GoError) : Proxy × Option GoError :=
  match v with
  | .object members => members.foldl (storeProxyMember lib) (Proxy.zero, saved)
  | .null => (Proxy.zero, saved)
  | other => (Proxy.zero, saveError saved (typeError other.describe))

/-- The elements of a JSON array stored one after the other into the slice. -/
def storeProxies (lib : Stdlib) : List JSON → Option GoError → List Proxy × Option GoError
  | [], saved => ([], saved)
  | v :: rest, saved =>
    let r := storeProxy lib v saved
    let rs := storeProxies lib rest r.2
    (r.1 :: rs.1, rs.2)

/-- Go `json.Unmarshal(data, &proxies)` for a nil `proxies []Proxy`: the slice (`none`
is the nil slice) and the error. Invalid JSON is a syntax error and nothing is stored;
`null` leaves the slice nil; an array gives one element per array element; any other
value is a type error. -/
def unmarshalProxies (lib : Stdlib) (data : GoString) : Option (List Proxy) × Option GoError :=
  match parseJSON data with
  | none => (none, some (.lib "*json.SyntaxError" []))
  | some (.array elems) =>
    (some (storeProxies lib elems none).1, (storeProxies lib elems none).2)
  | some .null => (none, none)
  | some other => (none, some (typeError other.describe))

/-! ## Model of Go's `net/http` -/

/-- Go `http.Header`, a `map[string][]string`, as an association list. -/
abbrev Header := List (GoString × List GoString)

/-- Go `Header.Set`: the values of the key are replaced by the single value. (The
source first puts the key in canonical form; `Authorization` and `Accept`, the only
keys the package sets, are in canonical form.) -/
def Header.Set (h : Header) (key value : GoString) : Header :=
  (h.filter fun e => e.1 ≠ key) ++ [(key, [value])]

/-- Go `Header.Get`: the first value of the key, or the empty string. -/
def Header.Get (h : Header) (key : GoString) : GoString :=
  match h.find? fun e => e.1 = key with
  | some (_, v :: _) => v
  | _ => []

/-- Go `Header.Values`: all the values of the key. -/
def Header.Values (h : Header) (key : GoString) : List GoString :=
  match h.find? fun e => e.1 = key with
  | some e => e.2
  | none => []

/-- The part of Go `http.Request` the package fills in. -/
structure Request where
  Method : GoString
  URL : URL
  Header : Header
  Host : GoString
deriving DecidableEq, Repr

/-- Go `http.removeEmptyPort`: a host that has a port loses one trailing colon. -/
def removeEmptyPort (host : GoString) : GoString :=
  let hasPort : Bool :=
    match lastIndexByte 58 host, lastIndexByte 93 host with
    | some i, some j => j < i
    | some _, none => true
    | none, _ => false
  if hasPort && hasSuffix host [58] then host.dropLast else host

/-- Go `http.NewRequest("GET", url, nil)`: the method is valid, so the only failure is
the failure of `url.Parse`. -/
def NewRequestGET (url : GoString) : Except GoError Request :=
  match Parse url with
  | .error e => .error e
  | .ok u =>
    .ok { Method := lit "GET",
          URL := { u with Host := removeEmptyPort u.Host },
          Header := [],
          Host := removeEmptyPort u.Host }

/-- The part of Go `http.Response` that `Query` reads: the status code and what
`io.ReadAll(resp.Body)` returns. -/
structure Response where
  StatusCode : Int
  Body : Except GoError GoString

/-- Go `*http.Client`, by what its method `Do` answers to a request. -/
structure HttpClient where
  Do : Request → Except GoError Response

/-! ## client.go -/

/-- ProxiesURL is the full URL for getting proxies from the GetFreeProxy API. -/
def ProxiesURL : GoString := lit "https://api.getfreeproxy.com/v1/proxies"

/-- Client represents a GetFreeProxy API client; `httpClient` is a pointer and may be
nil. -/
structure Client where
  apiKey : GoString
  httpClient : Option HttpClient
  proxiesURL : GoString

/-- New creates a new GetFreeProxy API client with the default HTTP client;
`DefaultClient` is the value of the variable `http.DefaultClient`, a non-nil pointer. -/
def New (DefaultClient : HttpClient) (apiKey : GoString) : Client :=
  { apiKey := apiKey, httpClient := some DefaultClient, proxiesURL := ProxiesURL }

/-- NewWith creates a new GetFreeProxy API client with a custom HTTP client. -/
def NewWith (DefaultClient : HttpClient) (apiKey : GoString)
    (httpClient : Option HttpClient) : Client :=
  let httpClient := if httpClient.isNone then some DefaultClient else httpClient
  { apiKey := apiKey, httpClient := httpClient, proxiesURL := ProxiesURL }

/-- The three `q.Add` statements of `buildURL`. -/
def addParams (q : Values) (params : QueryParams) : Values :=
  let q := match params.Country with
    | some country => Values.Add q (lit "country") country
    | none => q
  let q := match params.Protocol with
    | some protocol => Values.Add q (lit "protocol") protocol
    | none => q
  match params.Page with
  | some page => Values.Add q (lit "page") (Itoa page)
  | none => q

/-- The method buildURL constructs the request URL with query parameters. The error
of `url.Parse` is dropped in the source; when it is not nil the URL is nil and
`u.Query()` panics: `none`. -/
def Client.buildURL (c : Client) (params : QueryParams) : Option GoString :=
  match Parse c.proxiesURL with
  | .error _ => none
  | .ok u =>
    let q := addParams u.Query params
    some (URL.String { u with RawQuery := Values.Encode q })

/-- The text `fmt.Sprintf("http error: status code %d", statusCode)`. -/
def statusMessage (statusCode : Int) : GoString :=
  lit "http error: status code " ++ Itoa statusCode

/-- The function handleErrorResponse parses error responses from the API. -/
def handleErrorResponse (statusCode : Int) (body : GoString) : GoError :=
  let r := unmarshalStringMap body
  match r.2 with
  | some _ => .apiError { Message := statusMessage statusCode }
  | none =>
    match mapLookup r.1 (lit "error") with
    | some errMsg => .apiError { Message := errMsg }
    | none => .apiError { Message := statusMessage statusCode }

/-- What a call of `Query` does: it panics, or it returns a slice (`none` is nil) and
an error (`none` is nil). -/
inductive Outcome where
  | panic
  | ret (proxies : Option (List Proxy)) (err : Option GoError)
deriving DecidableEq, Repr

/-- The request `Query` hands to the transport: `none` when `buildURL` panics, an
error when `http.NewRequest` fails. -/
def Client.buildRequest (c : Client) (options : List QueryOption) :
    Option (Except GoError Request) :=
  let params := applyOptions options QueryParams.zero
  match c.buildURL params with
  | none => none
  | some url =>
    match NewRequestGET url with
    | .error err => some (.error err)
    | .ok req =>
      let header := Header.Set req.Header (lit "Authorization") (lit "Bearer " ++ c.apiKey)
      let header := Header.Set header (lit "Accept") (lit "application/json")
      some (.ok { req with Header := header })

/-- What `Query` does with the answer of the transport. -/
def handleResponse (lib : Stdlib) (resp : Response) : Outcome :=
  match resp.Body with
  | .error err => .ret none (some err)
  | .ok body =>
    if resp.StatusCode < 200 || resp.StatusCode ≥ 300 then
      .ret none (some (handleErrorResponse resp.StatusCode body))
    else
      match unmarshalProxies lib body with
      | (_, some err) =>
        .ret none (some (.wrapError (lit "failed to parse response: " ++ err.Error lib.ErrorText) err))
      | (proxies, none) => .ret proxies none

/-- Query retrieves a list of proxies from the API with optional filters. -/
def Client.Query (lib : Stdlib) (c : Client) (options : List QueryOption) : Outcome :=
  match c.buildRequest options with
  | none => .panic
  | some (.error err) => .ret none (some err)
  | some (.ok req) =>
    match c.httpClient with
    | none => .panic
    | some hc =>
      match hc.Do req with
      | .error err => .ret none (some err)
      | .ok resp => handleResponse lib resp

/-- QueryCountry retrieves proxies filtered by country. -/
def Client.QueryCountry (lib : Stdlib) (c : Client) (country : GoString) : Outcome :=
  c.Query lib [WithCountry country]

/-- QueryProtocol retrieves proxies filtered by protocol. -/
def Client.QueryProtocol (lib : Stdlib) (c : Client) (protocol : GoString) : Outcome :=
  c.Query lib [WithProtocol protocol]

/-- QueryPage retrieves proxies from a specific page. -/
def Client.QueryPage (lib : Stdlib) (c : Client) (page : Int) : Outcome :=
  c.Query lib [WithPage page]

/-! ## Model of Go's `encoding/json`: encoding -/

/-- The result of a decoder on a longer text, from its result on the rest. -/
def consOk (c : Byte) : Except GoError GoString → Except GoError GoString
  | .ok t => .ok (c :: t)
  | .error e => .error e

/-- The bytes `url.QueryEscape` can write: letters, digits, `-`, `_`, `.`, `~`, `%`
and `+`. -/
def queryByte (b : Byte) : Bool :=
  isAlnum b || b = 45 || b = 95 || b = 46 || b = 126 || b = 37 || b = 43

/-- The query string that holds the given key-value pairs in the given order. -/
def encodePairs (pairs : List (GoString × GoString)) : GoString :=
  ((pairs.map fun kv => QueryEscape kv.1 ++ 61 :: QueryEscape kv.2).intersperse [38]).flatten

/-- The URL that `url.Parse(ProxiesURL)` returns. -/
def endpointURL : URL :=
  { URL.zero with
    Scheme := lit "https", Host := lit "api.getfreeproxy.com", Path := lit "/v1/proxies" }

/-- The key-value pairs a query string must hold for the given parameters: one pair for
each field that is present, in the order of the keys. -/
def expectedPairs (params : QueryParams) : List (GoString × GoString) :=
  (match params.Country with
    | some country => [(lit "country", country)]
    | none => [])
  ++ (match params.Page with
    | some page => [(lit "page", Itoa page)]
    | none => [])
  ++ (match params.Protocol with
    | some protocol => [(lit "protocol", protocol)]
    | none => [])

/-- The decoded query a request must carry for the given parameters: each key of a
present field with exactly one value, and no other key. -/
def expectedValues (params : QueryParams) : Values :=
  (expectedPairs params).map fun kv => (kv.1, [kv.2])

/-- A transport that answers every request with the given status code and body. -/
def fixedTransport (statusCode : Int) (body : GoString) : HttpClient :=
  ⟨fun _ => .ok ⟨statusCode, .ok body⟩⟩

/-- An instance of the library parameters: every number parses to the float with bit
pattern 0, which is written `0`, and the text of a library error is its type name
followed by its detail. -/
def sampleStdlib : Stdlib :=
  ⟨fun _ => some ⟨0⟩, fun _ => some [48], fun typ detail => lit typ ++ detail⟩

/-- The request `Query` builds for a client of `New` with the key `test-api-key` and the
options of the test `TestQueryWithOptions`. -/
def sampleRequest : Request :=
  { Method := lit "GET",
    URL := { endpointURL with RawQuery := lit "country=US&page=1&protocol=socks5" },
    Header := [(lit "Authorization", [lit "Bearer test-api-key"]),
               (lit "Accept", [lit "application/json"])],
    Host := lit "api.getfreeproxy.com" }

/-- The text of a member value that is a JSON string. -/
def stringText : JSON → Option GoString
  | .string raw => some (unquote raw)
  | _ => none

/-- The text a member value leaves in a `map[string]string`: a JSON string leaves its
text and `null` leaves the empty string; no other value can be stored. -/
def memberText : JSON → Option GoString
  | .string raw => some (unquote raw)
  | .null => some []
  | _ => none

/-- The last member of a JSON object whose key is the given one. -/
def lastMember (members : List (GoString × JSON)) (key : GoString) : Option (GoString × JSON) :=
  members.reverse.find? fun m => unquote m.1 = key

/-- The two-tier message of an error response, for a given reading `text` of what a
member value of a string-to-string object is: the value of the key `error` when the
body is a JSON object, all its member values have a text and the key is present; the
status-code message in every other case. -/
def objectErrorMessage (text : JSON → Option GoString) (statusCode : Int) (body : GoString) :
    GoString :=
  match parseJSON body with
  | some (.object members) =>
    if members.all fun m => (text m.2).isSome then
      match lastMember members (lit "error") with
      | some m => (text m.2).getD []
      | none => statusMessage statusCode
    else statusMessage statusCode
  | _ => statusMessage statusCode

/-- Tells whether the JSON value is an array. -/
def JSON.isArray : JSON → Bool
  | .array _ => true
  | _ => false

/-- Tells whether the JSON value is `null`. -/
def JSON.isNull : JSON → Bool
  | .null => true
  | _ => false

/-- The transport of the client delivers the response `resp` to the request that
`Query` builds from the options, and the body of the response can be read to the end,
giving `body`. -/
def Delivered (c : Client) (options : List QueryOption) (resp : Response) (body : GoString) :
    Prop :=
  ∃ req hc, c.buildRequest options = some (.ok req) ∧ c.httpClient = some hc
    ∧ hc.Do req = .ok resp ∧ resp.Body = .ok body

/-- Tells whether the body is a JSON object with only string or `null` member values
whose last member of key `error` is the empty string or `null`. -/
def emptyErrorEntry (body : GoString) : Bool :=
  match parseJSON body with
  | some (.object members) =>
    (members.all fun m => (memberText m.2).isSome)
      && (match lastMember members (lit "error") with
          | some m => decide ((memberText m.2).getD [] = [])
          | none => false)
  | _ => false

/-- The error `json.Unmarshal` returns for a body that is not a JSON array nor `null`:
a syntax error for a text that is not JSON, a type error for another JSON value. -/
def decodeError (body : GoString) : GoError :=
  match parseJSON body with
  | none => .lib "*json.SyntaxError" []
  | some v => typeError v.describe

theorem applyOptions_append (xs ys : List QueryOption) (qp : QueryParams) :
    applyOptions (xs ++ ys) qp = applyOptions ys (applyOptions xs qp) := by
  simp [applyOptions, List.foldl_append]

theorem applyOptions_specs (specs : List OptionSpec) :
    ∀ qp : QueryParams,
      (applyOptions (specs.map OptionSpec.toOption) qp).Country
          = (lastCountry specs).orElse (fun _ => qp.Country) ∧
      (applyOptions (specs.map OptionSpec.toOption) qp).Protocol
          = (lastProtocol specs).orElse (fun _ => qp.Protocol) ∧
      (applyOptions (specs.map OptionSpec.toOption) qp).Page
          = (lastPage specs).orElse (fun _ => qp.Page) := by
  induction specs with
  | nil => intro qp; simp [applyOptions, lastCountry, lastProtocol, lastPage]
  | cons o rest ih =>
    intro qp
    have h := ih (o.toOption qp)
    simp only [List.map_cons, applyOptions, List.foldl_cons] at h ⊢
    obtain ⟨h1, h2, h3⟩ := h
    rw [h1, h2, h3]
    cases o <;>
      simp only [lastCountry, lastProtocol, lastPage, OptionSpec.toOption, WithCountry,
        WithProtocol, WithPage] <;>
      refine ⟨?_, ?_, ?_⟩ <;>
      first
        | rfl
        | (cases lastCountry rest <;> rfl)
        | (cases lastProtocol rest <;> rfl)
        | (cases lastPage rest <;> rfl)

/-- C7: applying a list of options built from WithCountry, WithProtocol and WithPage,
in the order supplied, to the empty QueryParams leaves in each field the value of the
last option targeting that field (absent when there is none), and a single option
changes its own field only. -/
theorem options_last_write_wins (specs : List OptionSpec) (qp : QueryParams)
    (c p : GoString) (n : Int) :
    (applyOptions (specs.map OptionSpec.toOption) QueryParams.zero
        = ⟨lastCountry specs, lastProtocol specs, lastPage specs⟩) ∧
    (WithCountry c qp = ⟨some c, qp.Protocol, qp.Page⟩) ∧
    (WithProtocol p qp = ⟨qp.Country, some p, qp.Page⟩) ∧
    (WithPage n qp = ⟨qp.Country, qp.Protocol, some n⟩) := by
  refine ⟨?_, rfl, rfl, rfl⟩
  obtain ⟨h1, h2, h3⟩ := applyOptions_specs specs QueryParams.zero
  generalize applyOptions (specs.map OptionSpec.toOption) QueryParams.zero = r at h1 h2 h3
  obtain ⟨rc, rp, rn⟩ := r
  simp only [QueryParams.zero] at h1 h2 h3
  simp only [QueryParams.mk.injEq]
  refine ⟨?_, ?_, ?_⟩
  · rw [h1]; cases lastCountry specs <;> rfl
  · rw [h2]; cases lastProtocol specs <;> rfl
  · rw [h3]; cases lastPage specs <;> rfl

/-! ## Query escaping and unescaping -/

theorem byte_ofNat_val (c : Byte) : (Fin.ofNat c.val : Byte) = c := by
  apply Fin.ext
  simp [Fin.ofNat, Nat.mod_eq_of_lt c.isLt]

theorem upperhex_spec : ∀ n, n < 16 → ishex (upperhex n) = true ∧ unhex (upperhex n) = n := by
  decide

theorem shouldEscape_percent_plus (c : Byte)
    (h : ¬ shouldEscape c .encodeQueryComponent = true) : c ≠ 37 ∧ c ≠ 43 := by
  refine ⟨?_, ?_⟩ <;> (rintro rfl; revert h; decide)

theorem unescape_query_plus (rest : GoString) :
    unescape .encodeQueryComponent (43 :: rest)
      = consOk 32 (unescape .encodeQueryComponent rest) := by
  rw [unescape.eq_def]
  simp only [consOk]
  cases unescape .encodeQueryComponent rest <;> simp

theorem unescape_query_pct (a b : Byte) (rest : GoString) (ha : ishex a = true)
    (hb : ishex b = true) :
    unescape .encodeQueryComponent (37 :: a :: b :: rest)
      = consOk (Fin.ofNat (unhex a * 16 + unhex b)) (unescape .encodeQueryComponent rest) := by
  rw [unescape.eq_def]
  simp only [consOk]
  cases unescape .encodeQueryComponent rest <;> simp [ha, hb]

theorem unescape_query_other (c : Byte) (rest : GoString) (h1 : c ≠ 37) (h2 : c ≠ 43) :
    unescape .encodeQueryComponent (c :: rest)
      = consOk c (unescape .encodeQueryComponent rest) := by
  rw [unescape.eq_def]
  simp only [consOk]
  cases unescape .encodeQueryComponent rest <;> simp [h1, h2]

theorem escape_cons (c : Byte) (s : GoString) (mode : Encoding) :
    escape (c :: s) mode
      = (if c = 32 && mode = .encodeQueryComponent then [43]
          else if shouldEscape c mode then [37, upperhex (c.val / 16), upperhex (c.val % 16)]
          else [c]) ++ escape s mode := by
  simp [escape, List.flatMap_cons]

theorem unescape_escape_query (s : GoString) :
    unescape .encodeQueryComponent (escape s .encodeQueryComponent) = .ok s := by
  induction s with
  | nil => rfl
  | cons c s ih =>
    rw [escape_cons]
    by_cases h32 : c = 32
    · subst h32
      simp only [decide_True, Bool.and_self, if_true, List.singleton_append]
      rw [unescape_query_plus, ih]; rfl
    · by_cases hesc : shouldEscape c .encodeQueryComponent = true
      · have hhi := upperhex_spec (c.val / 16) (by omega)
        have hlo := upperhex_spec (c.val % 16) (by omega)
        simp only [h32, hesc, decide_False, Bool.false_and, if_false, if_true, List.cons_append,
          List.nil_append, Bool.false_eq_true]
        rw [unescape_query_pct _ _ _ hhi.1 hlo.1, ih, hhi.2, hlo.2]
        have : c.val / 16 * 16 + c.val % 16 = c.val := by omega
        simp only [consOk, this, byte_ofNat_val]
      · obtain ⟨h37, h43⟩ := shouldEscape_percent_plus c hesc
        simp only [h32, hesc, decide_False, Bool.false_and, if_false, List.cons_append,
          List.nil_append, Bool.false_eq_true]
        rw [unescape_query_other _ _ h37 h43, ih]; rfl

theorem queryByte_upperhex : ∀ n, n < 16 → queryByte (upperhex n) = true := by decide

set_option maxRecDepth 100000 in
theorem queryByte_facts : ∀ b : Byte, queryByte b = true →
    b ≠ 38 ∧ b ≠ 61 ∧ b ≠ 59 ∧ b ≠ 35 ∧ b ≠ 63 ∧ 32 ≤ b.val ∧ b.val ≠ 127 := by
  decide

set_option maxRecDepth 100000 in
theorem queryByte_of_not_shouldEscape : ∀ b : Byte,
    shouldEscape b .encodeQueryComponent = false → queryByte b = true := by
  decide

theorem escape_query_bytes (s : GoString) :
    ∀ b ∈ escape s .encodeQueryComponent, queryByte b = true := by
  induction s with
  | nil => intro b hb; simp [escape] at hb
  | cons c s ih =>
    intro b hb
    rw [escape_cons, List.mem_append] at hb
    rcases hb with hb | hb
    · by_cases h32 : c = 32
      · subst h32
        simp at hb
        subst hb; decide
      · by_cases hesc : shouldEscape c .encodeQueryComponent = true
        · simp only [h32, hesc, decide_False, Bool.false_and, if_false, if_true,
            Bool.false_eq_true, List.mem_cons, List.mem_singleton, List.not_mem_nil, or_false] at hb
          rcases hb with rfl | rfl | rfl
          · decide
          · exact queryByte_upperhex _ (by omega)
          · exact queryByte_upperhex _ (by omega)
        · simp only [h32, hesc, decide_False, Bool.false_and, if_false,
            Bool.false_eq_true, List.mem_singleton] at hb
          subst hb
          exact queryByte_of_not_shouldEscape _ (by simpa using hesc)
    · exact ih b hb

theorem cut_append (sep : Byte) (a b : GoString) (h : sep ∉ a) :
    cut sep (a ++ sep :: b) = (a, b, true) := by
  induction a with
  | nil => simp [cut]
  | cons c a ih =>
    have hc : c ≠ sep := fun e => h (by simp [e])
    have ha : sep ∉ a := fun e => h (by simp [e])
    simp [cut, hc, ih ha]

theorem cut_not_mem (sep : Byte) (a : GoString) (h : sep ∉ a) :
    cut sep a = (a, [], false) := by
  induction a with
  | nil => simp [cut]
  | cons c a ih =>
    have hc : c ≠ sep := fun e => h (by simp [e])
    have ha : sep ∉ a := fun e => h (by simp [e])
    simp [cut, hc, ih ha]

theorem splitAmp_append (a b : GoString) (h : (38 : Byte) ∉ a) :
    splitAmp (a ++ 38 :: b) = a :: splitAmp b := by
  induction a with
  | nil => simp [splitAmp]
  | cons c a ih =>
    have hc : c ≠ 38 := fun e => h (by simp [e])
    have ha : (38 : Byte) ∉ a := fun e => h (by simp [e])
    simp [splitAmp, hc, ih ha]

theorem splitAmp_single (a : GoString) (h : (38 : Byte) ∉ a) (hne : a ≠ []) :
    splitAmp a = [a] := by
  induction a with
  | nil => exact absurd rfl hne
  | cons c a ih =>
    have hc : c ≠ 38 := fun e => h (by simp [e])
    have ha : (38 : Byte) ∉ a := fun e => h (by simp [e])
    cases a with
    | nil => simp [splitAmp, hc]
    | cons d a =>
      have e := ih ha (by simp)
      rw [splitAmp, if_neg hc, e]
theorem escape_query_not_mem (s : GoString) (b : Byte) (hb : queryByte b = false) :
    b ∉ escape s .encodeQueryComponent := by
  intro h
  have := escape_query_bytes s b h
  rw [this] at hb
  exact Bool.noConfusion hb

theorem parseQueryStep_encoded (st : Values × Option GoError) (k v : GoString) :
    parseQueryStep st (QueryEscape k ++ 61 :: QueryEscape v) = (Values.Add st.1 k v, st.2) := by
  have h59k : (59 : Byte) ∉ QueryEscape k := escape_query_not_mem k 59 (by decide)
  have h59v : (59 : Byte) ∉ QueryEscape v := escape_query_not_mem v 59 (by decide)
  have h61k : (61 : Byte) ∉ QueryEscape k := escape_query_not_mem k 61 (by decide)
  have hc : (QueryEscape k ++ 61 :: QueryEscape v).contains 59 = false := by
    rw [Bool.eq_false_iff]
    intro h
    simp only [List.contains_eq_any_beq, List.any_eq_true, beq_iff_eq] at h
    obtain ⟨x, h, rfl⟩ := h
    simp only [List.mem_append, List.mem_cons] at h
    rcases h with h | h | h
    · exact h59k h
    · exact absurd h (by decide)
    · exact h59v h
  have hne : QueryEscape k ++ 61 :: QueryEscape v ≠ [] := by simp
  unfold parseQueryStep
  rw [hc]
  simp only [Bool.false_eq_true, if_false, hne, cut_append 61 _ _ h61k]
  simp only [QueryUnescape, QueryEscape, unescape_escape_query]

theorem parseQuery_foldl_encodePairs (pairs : List (GoString × GoString)) :
    ∀ st : Values × Option GoError, pairs ≠ [] →
      (splitAmp (encodePairs pairs)).foldl parseQueryStep st
        = (pairs.foldl (fun m kv => Values.Add m kv.1 kv.2) st.1, st.2) := by
  induction pairs with
  | nil => intro st h; exact absurd rfl h
  | cons kv rest ih =>
    intro st _
    have h38 : (38 : Byte) ∉ QueryEscape kv.1 ++ 61 :: QueryEscape kv.2 := by
      simp only [List.mem_append, List.mem_cons, not_or]
      exact ⟨escape_query_not_mem _ 38 (by decide), by decide,
        escape_query_not_mem _ 38 (by decide)⟩
    cases rest with
    | nil =>
      simp only [encodePairs, List.map_cons, List.map_nil, List.intersperse_single,
        List.flatten_cons, List.flatten_nil, List.append_nil]
      rw [splitAmp_single _ h38 (by simp)]
      simp only [List.foldl_cons, List.foldl_nil, parseQueryStep_encoded]
    | cons kv2 rest2 =>
      have e : encodePairs (kv :: kv2 :: rest2)
          = (QueryEscape kv.1 ++ 61 :: QueryEscape kv.2) ++ 38 :: encodePairs (kv2 :: rest2) := by
        simp [encodePairs, List.intersperse]
      rw [e, splitAmp_append _ _ h38, List.foldl_cons, parseQueryStep_encoded,
        ih _ (by simp)]
      simp

theorem ParseQuery_encodePairs (pairs : List (GoString × GoString)) :
    ParseQuery (encodePairs pairs)
      = (pairs.foldl (fun m kv => Values.Add m kv.1 kv.2) [], none) := by
  cases pairs with
  | nil => rfl
  | cons kv rest => exact parseQuery_foldl_encodePairs _ _ (by simp)
theorem Parse_ProxiesURL : Parse ProxiesURL = .ok endpointURL := by rfl

theorem endpoint_String (rq : GoString) :
    URL.String { endpointURL with RawQuery := rq }
      = ProxiesURL ++ (if rq = [] then [] else 63 :: rq) := by
  cases rq with
  | nil => rfl
  | cons b t =>
    show ((lit "https:" ++ lit "//api.getfreeproxy.com/v1/proxies") ++ (63 :: b :: t)) ++ []
      = ProxiesURL ++ (63 :: b :: t)
    rw [List.append_nil]
    rfl

theorem getSchemeFrom_letters (raw : GoString) (p r : GoString)
    (hp : ∀ c ∈ p, (97 ≤ c.val && c.val ≤ 122) = true) :
    ∀ acc : GoString, acc ++ p ≠ [] →
      getSchemeFrom raw acc (p ++ 58 :: r) = .ok (acc ++ p, r) := by
  induction p with
  | nil =>
    intro acc h
    have : acc ≠ [] := by simpa using h
    rw [List.nil_append, getSchemeFrom, if_neg (by decide), if_neg (by decide),
      if_pos (by decide), if_neg this]
    simp
  | cons c p ih =>
    intro acc _
    have hc := hp c (by simp)
    rw [List.cons_append, getSchemeFrom]
    simp only [hc, Bool.true_or, if_true]
    rw [ih (fun d hd => hp d (by simp [hd])) (acc ++ [c]) (by simp)]
    simp

theorem hasSuffix_append_ne (a rq : GoString) (c : Byte) (hne : rq ≠ []) (h : c ∉ rq) :
    hasSuffix (a ++ rq) [c] = false := by
  obtain ⟨x, t, hx⟩ : ∃ x t, rq.reverse = x :: t := by
    cases hr : rq.reverse with
    | nil => exact absurd (List.reverse_eq_nil_iff.mp hr) hne
    | cons x t => exact ⟨x, t, rfl⟩
  have hxm : x ∈ rq := by
    have : x ∈ rq.reverse := by rw [hx]; simp
    simpa using this
  have hxc : x ≠ c := fun e => h (e ▸ hxm)
  simp [hasSuffix, List.reverse_append, hx, hasPrefix, hxc]

set_option maxRecDepth 100000 in
theorem Parse_endpoint_query (rq : GoString) (hne : rq ≠ [])
    (hq : ∀ b ∈ rq, b ≠ 35 ∧ b ≠ 63 ∧ 32 ≤ b.val ∧ b.val ≠ 127) :
    Parse (ProxiesURL ++ 63 :: rq) = .ok { endpointURL with RawQuery := rq } := by
  have h35 : (35 : Byte) ∉ ProxiesURL ++ 63 :: rq := by
    simp only [List.mem_append, List.mem_cons, not_or]
    exact ⟨by decide, by decide, fun h => (hq _ h).1 rfl⟩
  have hctl : stringContainsCTLByte (ProxiesURL ++ 63 :: rq) = false := by
    simp only [stringContainsCTLByte, List.any_append, List.any_cons, Bool.or_eq_false_iff]
    refine ⟨by decide, by decide, ?_⟩
    rw [Bool.eq_false_iff]
    intro h
    simp only [List.any_eq_true, Bool.or_eq_true, decide_eq_true_eq] at h
    obtain ⟨b, hb, h⟩ := h
    have := hq b hb
    omega
  have hstar : ProxiesURL ++ 63 :: rq ≠ [42] := by
    intro h
    have := congrArg List.length h
    simp [ProxiesURL, lit] at this
  have hscheme : getScheme (ProxiesURL ++ 63 :: rq)
      = .ok (lit "https", lit "//api.getfreeproxy.com/v1/proxies" ++ 63 :: rq) := by
    have : ProxiesURL ++ 63 :: rq
        = lit "https" ++ 58 :: (lit "//api.getfreeproxy.com/v1/proxies" ++ 63 :: rq) := by
      have : ProxiesURL = lit "https" ++ 58 :: lit "//api.getfreeproxy.com/v1/proxies" := by
        decide
      rw [this]; simp
    rw [getScheme]
    conv => lhs; arg 3; rw [this]
    rw [getSchemeFrom_letters _ _ _ (by decide) [] (by decide)]
    simp
  have hsuf : hasSuffix (lit "//api.getfreeproxy.com/v1/proxies" ++ 63 :: rq) [63] = false := by
    have := hasSuffix_append_ne (lit "//api.getfreeproxy.com/v1/proxies" ++ [63]) rq 63 hne
      (fun h => (hq _ h).2.1 rfl)
    simpa using this
  have hcut : cut 63 (lit "//api.getfreeproxy.com/v1/proxies" ++ 63 :: rq)
      = (lit "//api.getfreeproxy.com/v1/proxies", rq, true) :=
    cut_append 63 _ _ (by decide)
  rw [Parse, cut_not_mem 35 _ h35]
  simp only [parseNoFragment, hctl, hstar, hscheme, hsuf, hcut, Bool.false_eq_true, if_false,
    Bool.false_and, if_true]
  rfl
theorem encodePairs_bytes (pairs : List (GoString × GoString)) :
    ∀ b ∈ encodePairs pairs, queryByte b = true ∨ b = 61 ∨ b = 38 := by
  induction pairs with
  | nil => intro b hb; simp [encodePairs] at hb
  | cons kv rest ih =>
    have hkv : ∀ b ∈ QueryEscape kv.1 ++ 61 :: QueryEscape kv.2,
        queryByte b = true ∨ b = 61 ∨ b = 38 := by
      intro b hb
      simp only [List.mem_append, List.mem_cons] at hb
      rcases hb with hb | hb | hb
      · exact Or.inl (escape_query_bytes _ b hb)
      · exact Or.inr (Or.inl hb)
      · exact Or.inl (escape_query_bytes _ b hb)
    cases rest with
    | nil =>
      intro b hb
      simp only [encodePairs, List.map_cons, List.map_nil, List.intersperse_single,
        List.flatten_cons, List.flatten_nil, List.append_nil] at hb
      exact hkv b hb
    | cons kv2 rest2 =>
      have e : encodePairs (kv :: kv2 :: rest2)
          = (QueryEscape kv.1 ++ 61 :: QueryEscape kv.2) ++ 38 :: encodePairs (kv2 :: rest2) := by
        simp [encodePairs, List.intersperse]
      intro b hb
      rw [e, List.mem_append, List.mem_cons] at hb
      rcases hb with hb | hb | hb
      · exact hkv b hb
      · exact Or.inr (Or.inr hb)
      · exact ih b hb

theorem encodePairs_ne_nil (kv : GoString × GoString) (rest : List (GoString × GoString)) :
    encodePairs (kv :: rest) ≠ [] := by
  cases rest with
  | nil => simp [encodePairs]
  | cons kv2 rest2 => simp [encodePairs, List.intersperse]

theorem Encode_addParams (params : QueryParams) :
    Values.Encode (addParams [] params) = encodePairs (expectedPairs params) := by
  obtain ⟨c, p, n⟩ := params
  cases c <;> cases p <;> cases n <;> rfl

theorem foldl_Add_expectedPairs (params : QueryParams) :
    (expectedPairs params).foldl (fun m kv => Values.Add m kv.1 kv.2) []
      = expectedValues params := by
  obtain ⟨c, p, n⟩ := params
  cases c <;> cases p <;> cases n <;> rfl

/-- The text `buildURL` returns for the endpoint `ProxiesURL`. -/
theorem buildURL_endpoint (c : Client) (params : QueryParams) (h : c.proxiesURL = ProxiesURL) :
    c.buildURL params
      = some (ProxiesURL ++ (if encodePairs (expectedPairs params) = [] then []
          else 63 :: encodePairs (expectedPairs params))) := by
  have hq : endpointURL.Query = [] := by rfl
  simp only [Client.buildURL, h, Parse_ProxiesURL, hq, Encode_addParams, endpoint_String]

/-- Parsing the text `buildURL` returns gives the endpoint with the encoded pairs as
its query. -/
theorem Parse_built (params : QueryParams) :
    Parse (ProxiesURL ++ (if encodePairs (expectedPairs params) = [] then []
          else 63 :: encodePairs (expectedPairs params)))
      = .ok { endpointURL with RawQuery := encodePairs (expectedPairs params) } := by
  by_cases h : encodePairs (expectedPairs params) = []
  · rw [h]; rfl
  · rw [if_neg h]
    apply Parse_endpoint_query _ h
    intro b hb
    have hf := queryByte_facts b
    rcases encodePairs_bytes _ b hb with hb | hb | hb
    · have := hf hb
      exact ⟨this.2.2.2.1, this.2.2.2.2.1, this.2.2.2.2.2⟩
    · subst hb; decide
    · subst hb; decide

/-- C1: for a client built by New and for every QueryParams value, buildURL returns a
URL whose query string decodes to exactly the keys of the fields that are present,
each with exactly one value (the given country, the given protocol, the decimal form
of the given page), and to no other key. -/
theorem buildURL_query_exact (DefaultClient : HttpClient) (apiKey : GoString)
    (params : QueryParams) :
    ∃ url u, (New DefaultClient apiKey).buildURL params = some url
      ∧ Parse url = .ok u
      ∧ ParseQuery u.RawQuery = (expectedValues params, none) := by
  refine ⟨_, _, buildURL_endpoint _ params rfl, Parse_built params, ?_⟩
  show ParseQuery (encodePairs (expectedPairs params)) = _
  rw [ParseQuery_encodePairs, foldl_Add_expectedPairs]
/-- C10: NewWith keeps the key, sets the endpoint to ProxiesURL, keeps a non-nil
transport and replaces a nil transport by the default one, so the transport of the
client is never nil; New returns the client NewWith returns for a nil transport. -/
theorem NewWith_client (DefaultClient : HttpClient) (k : GoString) (t : Option HttpClient) :
    (NewWith DefaultClient k t).apiKey = k
      ∧ (NewWith DefaultClient k t).proxiesURL = ProxiesURL
      ∧ (NewWith DefaultClient k t).httpClient
          = (match t with
             | some h => some h
             | none => some DefaultClient)
      ∧ (NewWith DefaultClient k t).httpClient ≠ none
      ∧ New DefaultClient k = NewWith DefaultClient k none := by
  cases t <;> simp [NewWith, New]

/-- The request built for the endpoint `ProxiesURL`. -/
theorem buildRequest_endpoint (c : Client) (options : List QueryOption)
    (h : c.proxiesURL = ProxiesURL) :
    c.buildRequest options
      = some (.ok
          { Method := lit "GET",
            URL := { endpointURL with
              RawQuery := encodePairs (expectedPairs (applyOptions options QueryParams.zero)) },
            Header := [(lit "Authorization", [lit "Bearer " ++ c.apiKey]),
                       (lit "Accept", [lit "application/json"])],
            Host := lit "api.getfreeproxy.com" }) := by
  simp only [Client.buildRequest, buildURL_endpoint c _ h, NewRequestGET, Parse_built]
  rfl

theorem buildRequest_headers (c : Client) (options : List QueryOption) (req : Request)
    (h : c.buildRequest options = some (.ok req)) :
    req.Method = lit "GET"
      ∧ req.Header = [(lit "Authorization", [lit "Bearer " ++ c.apiKey]),
                       (lit "Accept", [lit "application/json"])] := by
  unfold Client.buildRequest at h
  simp only at h
  split at h
  · exact absurd h (by simp)
  · split at h
    · simp at h
    · rename_i url hurl r hr
      simp only [Option.some.injEq, Except.ok.injEq] at h
      subst h
      unfold NewRequestGET at hr
      split at hr
      · simp at hr
      · simp only [Except.ok.injEq] at hr
        subst hr
        exact ⟨rfl, rfl⟩
/-- C9: the GET request that Query builds carries the header Authorization with the
value `Bearer ` followed by the API key of the client, verbatim, and the header Accept
with the value `application/json`; it is the request handed to the transport, and
QueryCountry, QueryProtocol and QueryPage hand over the request of Query with their
single option. -/
theorem request_carries_headers (lib : Stdlib) (c : Client) (options : List QueryOption)
    (req : Request) (h : c.buildRequest options = some (.ok req)) :
    req.Method = lit "GET"
      ∧ req.Header.Values (lit "Authorization") = [lit "Bearer " ++ c.apiKey]
      ∧ req.Header.Get (lit "Authorization") = lit "Bearer " ++ c.apiKey
      ∧ req.Header.Values (lit "Accept") = [lit "application/json"]
      ∧ req.Header.Get (lit "Accept") = lit "application/json"
      ∧ c.Query lib options
          = (match c.httpClient with
             | none => .panic
             | some hc =>
               match hc.Do req with
               | .error err => .ret none (some err)
               | .ok resp => handleResponse lib resp)
      ∧ (∀ x, c.QueryCountry lib x = c.Query lib [WithCountry x])
      ∧ (∀ x, c.QueryProtocol lib x = c.Query lib [WithProtocol x])
      ∧ (∀ n, c.QueryPage lib n = c.Query lib [WithPage n]) := by
  obtain ⟨hm, hh⟩ := buildRequest_headers c options req h
  refine ⟨hm, ?_, ?_, ?_, ?_, ?_, fun _ => rfl, fun _ => rfl, fun _ => rfl⟩
  · rw [hh]; rfl
  · rw [hh]; rfl
  · rw [hh]; rfl
  · rw [hh]; rfl
  · simp only [Client.Query, h]

theorem request_carries_headers_witness :
    sampleRequest.Method = lit "GET"
      ∧ sampleRequest.Header.Values (lit "Authorization") = [lit "Bearer " ++ lit "test-api-key"]
      ∧ sampleRequest.Header.Get (lit "Authorization") = lit "Bearer " ++ lit "test-api-key"
      ∧ sampleRequest.Header.Values (lit "Accept") = [lit "application/json"]
      ∧ sampleRequest.Header.Get (lit "Accept") = lit "application/json" := by
  have h := request_carries_headers sampleStdlib
    (New (fixedTransport 200 (lit "[]")) (lit "test-api-key"))
    [WithCountry (lit "US"), WithProtocol (lit "socks5"), WithPage 1] sampleRequest
    ((buildRequest_endpoint _ _ rfl).trans (by rfl))
  exact ⟨h.1, h.2.1, h.2.2.1, h.2.2.2.1, h.2.2.2.2.1⟩
theorem handleErrorResponse_isAPIError (statusCode : Int) (body : GoString) :
    ∃ e, handleErrorResponse statusCode body = .apiError e := by
  unfold handleErrorResponse
  simp only
  split
  · exact ⟨_, rfl⟩
  · split <;> exact ⟨_, rfl⟩

theorem handleResponse_cases (lib : Stdlib) (resp : Response) (body : GoString)
    (hbody : resp.Body = .ok body) :
    ((resp.StatusCode < 200 ∨ resp.StatusCode ≥ 300) →
        handleResponse lib resp
          = .ret none (some (handleErrorResponse resp.StatusCode body)))
      ∧ (¬ (resp.StatusCode < 200 ∨ resp.StatusCode ≥ 300) →
        ∃ proxies err, handleResponse lib resp = .ret proxies err
          ∧ ∀ e, err = some e → e.isAPIError = false) := by
  unfold handleResponse
  rw [hbody]
  constructor
  · intro h
    have : (decide (resp.StatusCode < 200) || decide (resp.StatusCode ≥ 300)) = true := by
      simpa using h
    simp only [this, if_true]
  · intro h
    have : (decide (resp.StatusCode < 200) || decide (resp.StatusCode ≥ 300)) = false := by
      simpa using h
    simp only [this, Bool.false_eq_true, if_false]
    split
    · refine ⟨_, _, rfl, ?_⟩
      intro e he
      simp only [Option.some.injEq] at he
      subst he
      rfl
    · refine ⟨_, _, rfl, ?_⟩
      intro e he
      simp at he

/-- C5: whenever the transport delivers a response with status code s and a readable
body, Query returns an error of kind `*Error` exactly when s < 200 or s >= 300, and in
that case the returned proxy list is nil; for s in [200, 300) the returned error is
never of kind `*Error`. -/
theorem query_api_error_iff (lib : Stdlib) (c : Client) (options : List QueryOption)
    (req : Request) (hc : HttpClient) (resp : Response) (body : GoString)
    (hreq : c.buildRequest options = some (.ok req)) (hhc : c.httpClient = some hc)
    (hdo : hc.Do req = .ok resp) (hbody : resp.Body = .ok body) :
    ∃ proxies err, c.Query lib options = .ret proxies err
      ∧ ((∃ e, err = some e ∧ e.isAPIError = true)
          ↔ (resp.StatusCode < 200 ∨ resp.StatusCode ≥ 300))
      ∧ ((resp.StatusCode < 200 ∨ resp.StatusCode ≥ 300) → proxies = none)
      ∧ ((200 ≤ resp.StatusCode ∧ resp.StatusCode < 300) →
          ∀ e, err = some e → e.isAPIError = false) := by
  have hq : c.Query lib options = handleResponse lib resp := by
    simp only [Client.Query, hreq, hhc, hdo]
  obtain ⟨h1, h2⟩ := handleResponse_cases lib resp body hbody
  by_cases hs : resp.StatusCode < 200 ∨ resp.StatusCode ≥ 300
  · obtain ⟨e, he⟩ := handleErrorResponse_isAPIError resp.StatusCode body
    refine ⟨none, some (handleErrorResponse resp.StatusCode body), by rw [hq, h1 hs], ?_,
      fun _ => rfl, ?_⟩
    · exact ⟨fun _ => hs, fun _ => ⟨_, rfl, by rw [he]; rfl⟩⟩
    · intro h; omega
  · obtain ⟨proxies, err, hr, hne⟩ := h2 hs
    refine ⟨proxies, err, by rw [hq, hr], ?_, fun h => absurd h hs, fun _ => hne⟩
    constructor
    · rintro ⟨e, he, hapi⟩
      rw [hne e he] at hapi
      exact Bool.noConfusion hapi
    · intro h; exact absurd h hs

theorem query_api_error_iff_witness :
    ∃ proxies err,
      (New (fixedTransport 404 (lit "not found")) (lit "test-api-key")).Query sampleStdlib
          [WithCountry (lit "US"), WithProtocol (lit "socks5"), WithPage 1] = .ret proxies err
      ∧ ((∃ e, err = some e ∧ e.isAPIError = true) ↔ ((404 : Int) < 200 ∨ (404 : Int) ≥ 300))
      ∧ (((404 : Int) < 200 ∨ (404 : Int) ≥ 300) → proxies = none)
      ∧ ((200 ≤ (404 : Int) ∧ (404 : Int) < 300) →
          ∀ e, err = some e → e.isAPIError = false) :=
  query_api_error_iff sampleStdlib (New (fixedTransport 404 (lit "not found")) (lit "test-api-key"))
    [WithCountry (lit "US"), WithProtocol (lit "socks5"), WithPage 1] sampleRequest
    (fixedTransport 404 (lit "not found")) ⟨404, .ok (lit "not found")⟩ (lit "not found")
    ((buildRequest_endpoint _ _ rfl).trans (by rfl)) rfl rfl rfl
theorem mapLookup_set (m : List (GoString × GoString)) (k k2 v : GoString) :
    mapLookup ((m.filter fun e => e.1 ≠ k2) ++ [(k2, v)]) k
      = if k2 = k then some v else mapLookup m k := by
  unfold mapLookup
  induction m with
  | nil =>
    by_cases h : k2 = k <;> simp [h]
  | cons e m ih =>
    by_cases he : e.1 = k2
    · simp only [List.filter_cons, he, ne_eq, not_true_eq_false, decide_False,
        Bool.false_eq_true, if_false]
      rw [ih]
      by_cases h : k2 = k
      · simp [h]
      · simp [h, List.find?_cons, he]
    · simp only [List.filter_cons, he, ne_eq, not_false_eq_true, decide_True, if_true,
        List.cons_append, List.find?_cons]
      by_cases hk : e.1 = k
      · have : k2 ≠ k := fun h => he (hk.trans h.symm)
        simp [hk, this]
      · simp only [hk, decide_False]
        exact ih

theorem storeString_fst (v : JSON) (saved : Option GoError) :
    (storeString [] v saved).1 = (memberText v).getD [] := by
  cases v <;> rfl

theorem storeString_snd_none (v : JSON) (saved : Option GoError) :
    (storeString [] v saved).2 = none ↔ saved = none ∧ (memberText v).isSome = true := by
  cases v <;> cases saved <;> simp [storeString, memberText, saveError]

theorem foldl_storeMapMember_error (ms : List (GoString × JSON)) :
    ∀ st : List (GoString × GoString) × Option GoError,
      (ms.foldl storeMapMember st).2 = none
        ↔ st.2 = none ∧ (ms.all fun m => (memberText m.2).isSome) = true := by
  induction ms with
  | nil => intro st; simp
  | cons m ms ih =>
    intro st
    rw [List.foldl_cons, ih]
    simp only [storeMapMember, storeString_snd_none, List.all_cons, Bool.and_eq_true]
    tauto

theorem foldl_storeMapMember_lookup (ms : List (GoString × JSON)) (k : GoString) :
    ∀ st : List (GoString × GoString) × Option GoError,
      mapLookup (ms.foldl storeMapMember st).1 k
        = match lastMember ms k with
          | some m => some ((memberText m.2).getD [])
          | none => mapLookup st.1 k := by
  induction ms with
  | nil => intro st; rfl
  | cons m ms ih =>
    intro st
    rw [List.foldl_cons, ih]
    simp only [lastMember, List.reverse_cons, List.find?_append]
    cases hfind : List.find? (fun m => decide (unquote m.1 = k)) ms.reverse with
    | some m2 => simp
    | none =>
      simp only [Option.none_or, storeMapMember, mapLookup_set, storeString_fst,
        List.find?_cons, List.find?_nil]
      by_cases h : unquote m.1 = k <;> simp [h]

/-- What `handleErrorResponse` returns, case by case on the body. -/
theorem handleErrorResponse_eq (statusCode : Int) (body : GoString) :
    handleErrorResponse statusCode body
      = .apiError ⟨objectErrorMessage memberText statusCode body⟩ := by
  unfold handleErrorResponse objectErrorMessage unmarshalStringMap
  cases hp : parseJSON body with
  | none => rfl
  | some v =>
    cases v with
    | object ms =>
      simp only
      by_cases hall : (ms.all fun m => (memberText m.2).isSome) = true
      · have he := (foldl_storeMapMember_error ms ([], none)).2 ⟨rfl, hall⟩
        have hl := foldl_storeMapMember_lookup ms (lit "error") ([], none)
        rw [he, hall]
        simp only [if_true]
        rw [hl]
        cases lastMember ms (lit "error") <;> rfl
      · have he : (ms.foldl storeMapMember ([], none)).2 ≠ none :=
          fun h => hall ((foldl_storeMapMember_error ms ([], none)).1 h).2
        simp only [hall, Bool.false_eq_true, if_false]
        cases hs : (ms.foldl storeMapMember ([], none)).2 with
        | none => exact absurd hs he
        | some e => rfl
    | null => rfl
    | bool b => rfl
    | number t => rfl
    | string r => rfl
    | array es => rfl
/-- C2 (amended): the message of the `*Error` that handleErrorResponse returns is the
value of the key `error` when the body is a JSON object whose member values are all
strings or `null` (a `null` counting as the empty string, the last member of a repeated
key counting) and the key is present, and is `http error: status code N` in every other
case: the body is not JSON, is not an object, has a member value of another kind, or
has no key `error`. -/
theorem error_message_two_tier (statusCode : Int) (body : GoString) :
    handleErrorResponse statusCode body
      = .apiError ⟨objectErrorMessage memberText statusCode body⟩ :=
  handleErrorResponse_eq statusCode body

/-- C2, as stated, fails on the body `{"error":null}`: it is not an object that maps
strings to strings, so the claim gives the status-code message, but the decoder stores
the empty string under `error` and the message is empty. -/
theorem error_message_null_value :
    handleErrorResponse 500 (lit "\x7b\"error\":null\x7d") = .apiError ⟨[]⟩
      ∧ objectErrorMessage stringText 500 (lit "\x7b\"error\":null\x7d")
          = lit "http error: status code 500"
      ∧ handleErrorResponse 500 (lit "\x7b\"error\":null\x7d")
          ≠ .apiError ⟨objectErrorMessage stringText 500 (lit "\x7b\"error\":null\x7d")⟩ := by
  decide!

theorem statusMessage_ne_nil (statusCode : Int) : statusMessage statusCode ≠ [] := by
  intro h
  have := congrArg List.length h
  simp [statusMessage, lit] at this

theorem objectErrorMessage_eq_nil (statusCode : Int) (body : GoString) :
    objectErrorMessage memberText statusCode body = [] ↔ emptyErrorEntry body = true := by
  unfold objectErrorMessage emptyErrorEntry
  have hne := statusMessage_ne_nil statusCode
  cases parseJSON body with
  | none => simp [hne]
  | some v =>
    cases v with
    | object ms =>
      simp only
      by_cases hall : (ms.all fun m => (memberText m.2).isSome) = true
      · rw [hall]
        cases lastMember ms (lit "error") with
        | none => simp [hne]
        | some m => simp
      · simp [hall, hne]
    | null => simp [hne]
    | bool b => simp [hne]
    | number t => simp [hne]
    | string r => simp [hne]
    | array es => simp [hne]

theorem Query_of_delivered (lib : Stdlib) (c : Client) (options : List QueryOption)
    (resp : Response) (body : GoString) (h : Delivered c options resp body) :
    c.Query lib options = handleResponse lib resp := by
  obtain ⟨req, hc, hreq, hhc, hdo, _⟩ := h
  simp only [Client.Query, hreq, hhc, hdo]

theorem handleResponse_non2xx (lib : Stdlib) (resp : Response) (body : GoString)
    (hbody : resp.Body = .ok body) (hs : resp.StatusCode < 200 ∨ resp.StatusCode ≥ 300) :
    handleResponse lib resp = .ret none (some (handleErrorResponse resp.StatusCode body)) := by
  unfold handleResponse
  rw [hbody]
  have : (decide (resp.StatusCode < 200) || decide (resp.StatusCode ≥ 300)) = true := by
    simpa using hs
  simp only [this, if_true]

/-- C6 (amended): for every response with a status code outside [200, 300) and every
body, the error Query returns is a `*Error`, with a nil proxy list; its Message is the
empty string exactly when the body is a JSON object with only string or `null` member
values whose last member `error` is the empty string or `null`, and is not empty in
every other case. -/
theorem non2xx_error_message (lib : Stdlib) (c : Client) (options : List QueryOption)
    (resp : Response) (body : GoString) (h : Delivered c options resp body)
    (hs : resp.StatusCode < 200 ∨ resp.StatusCode ≥ 300) :
    ∃ e : Error, c.Query lib options = .ret none (some (.apiError e))
      ∧ (e.Message = [] ↔ emptyErrorEntry body = true) := by
  refine ⟨⟨objectErrorMessage memberText resp.StatusCode body⟩, ?_, ?_⟩
  · rw [Query_of_delivered lib c options resp body h,
      handleResponse_non2xx lib resp body h.choose_spec.choose_spec.2.2.2 hs,
      handleErrorResponse_eq]
  · exact objectErrorMessage_eq_nil _ _

theorem non2xx_error_message_witness :
    ∃ e : Error,
      (New (fixedTransport 500 (lit "Internal Server Error")) (lit "test-api-key")).Query
          sampleStdlib [] = .ret none (some (.apiError e))
      ∧ (e.Message = [] ↔ emptyErrorEntry (lit "Internal Server Error") = true) :=
  non2xx_error_message sampleStdlib
    (New (fixedTransport 500 (lit "Internal Server Error")) (lit "test-api-key")) []
    ⟨500, .ok (lit "Internal Server Error")⟩ (lit "Internal Server Error")
    ⟨_, _, buildRequest_endpoint _ _ rfl, rfl, rfl, rfl⟩ (Or.inr (by decide))

/-- C6, as stated, fails on the body `{"error":""}`: the status code 500 is outside
[200, 300) and the message of the returned `*Error` is the empty string. -/
theorem non2xx_empty_message :
    (New (fixedTransport 500 (lit "\x7b\"error\":\"\"\x7d")) (lit "test-api-key")).Query
        sampleStdlib [] = .ret none (some (.apiError ⟨[]⟩)) := by
  decide!
theorem unmarshalProxies_bad (lib : Stdlib) (body : GoString)
    (hb : parseJSON body = none
      ∨ ∃ v, parseJSON body = some v ∧ v.isArray = false ∧ v.isNull = false) :
    (unmarshalProxies lib body).2 = some (decodeError body) := by
  unfold unmarshalProxies decodeError
  rcases hb with hb | ⟨v, hb, ha, hn⟩
  · rw [hb]
  · rw [hb]
    cases v with
    | array es => exact absurd ha (by simp [JSON.isArray])
    | null => exact absurd hn (by simp [JSON.isNull])
    | object ms => rfl
    | bool b => rfl
    | number t => rfl
    | string r => rfl

theorem handleResponse_2xx (lib : Stdlib) (resp : Response) (body : GoString)
    (hbody : resp.Body = .ok body) (hs : 200 ≤ resp.StatusCode ∧ resp.StatusCode < 300) :
    handleResponse lib resp
      = match unmarshalProxies lib body with
        | (_, some err) =>
          .ret none (some (.wrapError (lit "failed to parse response: "
            ++ err.Error lib.ErrorText) err))
        | (proxies, none) => .ret proxies none := by
  unfold handleResponse
  rw [hbody]
  have : (decide (resp.StatusCode < 200) || decide (resp.StatusCode ≥ 300)) = false := by
    simp only [Bool.or_eq_false_iff, decide_eq_false_iff_not]
    omega
  simp only [this, Bool.false_eq_true, if_false]

/-- C4 (amended): for every response with a status code in [200, 300) whose body is not
valid JSON, or is a JSON value other than an array and other than `null` (an object, a
string, a number, a boolean), Query returns a nil proxy list together with a decode
error: an error that is not of kind `*Error`, that wraps the error of the JSON decoder,
and whose message is `failed to parse response: ` followed by the message of that
error. -/
theorem decode_error_on_bad_body (lib : Stdlib) (c : Client) (options : List QueryOption)
    (resp : Response) (body : GoString) (h : Delivered c options resp body)
    (hs : 200 ≤ resp.StatusCode ∧ resp.StatusCode < 300)
    (hb : parseJSON body = none
      ∨ ∃ v, parseJSON body = some v ∧ v.isArray = false ∧ v.isNull = false) :
    ∃ err : GoError, c.Query lib options = .ret none (some err)
      ∧ err.isAPIError = false
      ∧ err = .wrapError (lit "failed to parse response: "
          ++ (decodeError body).Error lib.ErrorText) (decodeError body)
      ∧ err.Error lib.ErrorText
          = lit "failed to parse response: " ++ (decodeError body).Error lib.ErrorText := by
  refine ⟨_, ?_, ?_, rfl, rfl⟩
  · rw [Query_of_delivered lib c options resp body h,
      handleResponse_2xx lib resp body h.choose_spec.choose_spec.2.2.2 hs]
    have he := unmarshalProxies_bad lib body hb
    cases hu : unmarshalProxies lib body with
    | mk ps e =>
      rw [hu] at he
      simp only at he
      subst he
      rfl
  · rfl

theorem decode_error_on_bad_body_witness :
    ∃ err : GoError,
      (New (fixedTransport 200 (lit "\x7b\x7d")) (lit "test-api-key")).Query sampleStdlib []
          = .ret none (some err)
      ∧ err.isAPIError = false
      ∧ err = .wrapError (lit "failed to parse response: "
          ++ (decodeError (lit "\x7b\x7d")).Error sampleStdlib.ErrorText) (decodeError (lit "\x7b\x7d"))
      ∧ err.Error sampleStdlib.ErrorText
          = lit "failed to parse response: "
            ++ (decodeError (lit "\x7b\x7d")).Error sampleStdlib.ErrorText :=
  decode_error_on_bad_body sampleStdlib
    (New (fixedTransport 200 (lit "\x7b\x7d")) (lit "test-api-key")) []
    ⟨200, .ok (lit "\x7b\x7d")⟩ (lit "\x7b\x7d")
    ⟨_, _, buildRequest_endpoint _ _ rfl, rfl, rfl, rfl⟩ (by decide)
    (Or.inr ⟨.object [], by rfl, rfl, rfl⟩)

/-- C4, as stated, fails on the body `null`: it is a JSON value other than an array,
the status code 200 is in [200, 300), and Query returns a nil list with a nil error. -/
theorem decode_null_body :
    (parseJSON (lit "null")).map JSON.isArray = some false
      ∧ (New (fixedTransport 200 (lit "null")) (lit "test-api-key")).Query sampleStdlib []
          = .ret none none := by
  decide!
theorem skipWS_length (s : GoString) : (skipWS s).length ≤ s.length := by
  induction s with
  | nil => simp [skipWS]
  | cons c s ih =>
    rw [skipWS]
    split
    · simp only [List.length_cons]; omega
    · exact le_refl _

theorem prependRaw_some (p raw r : GoString) (x : Option (GoString × GoString))
    (h : prependRaw p x = some (raw, r)) : ∃ raw2, x = some (raw2, r) := by
  cases x with
  | none => simp [prependRaw] at h
  | some q =>
    obtain ⟨a, b⟩ := q
    simp only [prependRaw, Option.some.injEq, Prod.mk.injEq] at h
    exact ⟨a, by rw [h.2]⟩

theorem scanString_length : ∀ (n : Nat) (s raw r : GoString), s.length ≤ n →
    scanString s = some (raw, r) → r.length < s.length := by
  intro n
  induction n with
  | zero =>
    intro s raw r hl h
    have : s = [] := List.length_eq_zero.mp (by omega)
    subst this
    simp [scanString] at h
  | succ n ih =>
    intro s raw r hl h
    rw [scanString.eq_def] at h
    cases s with
    | nil => simp at h
    | cons c rest =>
      simp only at h
      by_cases h34 : c = 34
      · simp only [h34, if_true, Option.some.injEq, Prod.mk.injEq] at h
        rw [← h.2]; simp
      · simp only [h34, if_false] at h
        by_cases h92 : c = 92
        · simp only [h92, if_true] at h
          cases rest with
          | nil => simp at h
          | cons e rest2 =>
            simp only at h
            split at h
            · obtain ⟨raw2, h2⟩ := prependRaw_some _ _ _ _ h
              have := ih rest2 raw2 r (by simp at hl; omega) h2
              simp only [List.length_cons]; omega
            · split at h
              · match rest2, h with
                | h1 :: h2 :: h3 :: h4 :: rest3, h =>
                  simp only at h
                  split at h
                  · obtain ⟨raw2, hh⟩ := prependRaw_some _ _ _ _ h
                    have := ih rest3 raw2 r (by simp at hl; omega) hh
                    simp only [List.length_cons]; omega
                  · simp at h
                | [], h => simp at h
                | [_], h => simp at h
                | [_, _], h => simp at h
                | [_, _, _], h => simp at h
              · simp at h
        · simp only [h92, if_false] at h
          split at h
          · simp at h
          · obtain ⟨raw2, h2⟩ := prependRaw_some _ _ _ _ h
            have := ih rest raw2 r (by simp at hl; omega) h2
            simp only [List.length_cons]; omega

theorem spanDigits_length (s : GoString) : (spanDigits s).2.length ≤ s.length := by
  induction s with
  | nil => simp [spanDigits]
  | cons c s ih =>
    rw [spanDigits]
    split
    · simp only [List.length_cons]; omega
    · exact le_refl _

theorem scanExp_length (frac s a b : GoString) (h : scanExp frac s = some (a, b)) :
    b.length ≤ s.length := by
  unfold scanExp at h
  cases s with
  | nil =>
    simp only [Option.some.injEq, Prod.mk.injEq] at h
    rw [← h.2]
  | cons c rest =>
    simp only at h
    split at h
    · cases rest with
      | nil => simp at h
      | cons d rest2 =>
        simp only at h
        split at h
        · split at h
          · simp at h
          · simp only [Option.some.injEq, Prod.mk.injEq] at h
            have := spanDigits_length rest2
            rw [← h.2]; simp only [List.length_cons]; omega
        · split at h
          · simp at h
          · simp only [Option.some.injEq, Prod.mk.injEq] at h
            have := spanDigits_length (d :: rest2)
            rw [← h.2]; simp only [List.length_cons] at this ⊢; omega
    · simp only [Option.some.injEq, Prod.mk.injEq] at h
      rw [← h.2]

theorem scanFracExp_length (s a b : GoString) (h : scanFracExp s = some (a, b)) :
    b.length ≤ s.length := by
  unfold scanFracExp at h
  cases s with
  | nil => exact scanExp_length _ _ _ _ h
  | cons c rest =>
    simp only at h
    split at h
    · split at h
      · simp at h
      · have := scanExp_length _ _ _ _ h
        have := spanDigits_length rest
        simp only [List.length_cons]; omega
    · exact scanExp_length _ _ _ _ h

theorem scanNumber_length (s t r : GoString) (h : scanNumber s = some (t, r)) :
    r.length < s.length := by
  have hu : ∀ (u a b : GoString), scanUnsigned u = some (a, b) → b.length < u.length := by
    intro u a b hu
    unfold scanUnsigned at hu
    cases u with
    | nil => simp at hu
    | cons c rest =>
      simp only at hu
      split at hu
      · cases hf : scanFracExp rest with
        | none => simp [hf] at hu
        | some p =>
          obtain ⟨x, y⟩ := p
          rw [hf] at hu
          simp only [Option.some.injEq, Prod.mk.injEq] at hu
          have := scanFracExp_length _ _ _ hf
          rw [← hu.2]; simp only [List.length_cons]; omega
      · split at hu
        · cases hf : scanFracExp (spanDigits rest).2 with
          | none => simp [hf] at hu
          | some p =>
            obtain ⟨x, y⟩ := p
            rw [hf] at hu
            simp only [Option.some.injEq, Prod.mk.injEq] at hu
            have := scanFracExp_length _ _ _ hf
            have := spanDigits_length rest
            rw [← hu.2]; simp only [List.length_cons]; omega
        · simp at hu
  unfold scanNumber at h
  cases s with
  | nil => simp at h
  | cons c rest =>
    simp only at h
    split at h
    · cases hf : scanUnsigned rest with
      | none => simp [hf] at h
      | some p =>
        obtain ⟨x, y⟩ := p
        rw [hf] at h
        simp only [Option.some.injEq, Prod.mk.injEq] at h
        have := hu _ _ _ hf
        rw [← h.2]; simp only [List.length_cons]; omega
    · exact hu _ _ _ h

theorem parser_shrinks : ∀ f : Nat,
    (∀ d s v r, parseValue f d s = some (v, r) → r.length < s.length)
      ∧ (∀ d s vs r, parseElems f d s = some (vs, r) → r.length < s.length)
      ∧ (∀ d s ms r, parseMembers f d s = some (ms, r) → r.length < s.length) := by
  intro f
  induction f with
  | zero =>
    refine ⟨?_, ?_, ?_⟩ <;> intro d s v r h
    · simp [parseValue] at h
    · simp [parseElems] at h
    · simp [parseMembers] at h
  | succ f ih =>
    obtain ⟨ihv, ihe, ihm⟩ := ih
    refine ⟨?_, ?_, ?_⟩
    · intro d s v r h
      cases s with
      | nil => simp [parseValue] at h
      | cons c rest =>
        rw [parseValue] at h
        have hws := skipWS_length rest
        split at h
        · split at h
          · simp at h
          · split at h
            · simp at h
            · rename_i d2 rest2 heq
              rw [heq] at hws
              split at h
              · simp only [Option.some.injEq, Prod.mk.injEq] at h
                rw [← h.2]; simp only [List.length_cons] at hws ⊢; omega
              · cases hm : parseMembers f (d + 1) (d2 :: rest2) with
                | none => simp [hm] at h
                | some p =>
                  obtain ⟨ms, r2⟩ := p
                  rw [hm] at h
                  simp only [Option.some.injEq, Prod.mk.injEq] at h
                  have := ihm _ _ _ _ hm
                  rw [← h.2]; simp only [List.length_cons] at hws this ⊢; omega
        · split at h
          · split at h
            · simp at h
            · split at h
              · simp at h
              · rename_i d2 rest2 heq
                rw [heq] at hws
                split at h
                · simp only [Option.some.injEq, Prod.mk.injEq] at h
                  rw [← h.2]; simp only [List.length_cons] at hws ⊢; omega
                · cases hm : parseElems f (d + 1) (d2 :: rest2) with
                  | none => simp [hm] at h
                  | some p =>
                    obtain ⟨ms, r2⟩ := p
                    rw [hm] at h
                    simp only [Option.some.injEq, Prod.mk.injEq] at h
                    have := ihe _ _ _ _ hm
                    rw [← h.2]; simp only [List.length_cons] at hws this ⊢; omega
          · split at h
            · cases hm : scanString rest with
              | none => simp [hm] at h
              | some p =>
                obtain ⟨raw, r2⟩ := p
                rw [hm] at h
                simp only [Option.some.injEq, Prod.mk.injEq] at h
                have := scanString_length _ _ _ _ (le_refl _) hm
                rw [← h.2]; simp only [List.length_cons]; omega
            · split at h
              · split at h
                · simp only [Option.some.injEq, Prod.mk.injEq] at h
                  rw [← h.2]; simp only [List.length_cons, List.length_drop]; omega
                · simp at h
              · split at h
                · split at h
                  · simp only [Option.some.injEq, Prod.mk.injEq] at h
                    rw [← h.2]; simp only [List.length_cons, List.length_drop]; omega
                  · simp at h
                · split at h
                  · split at h
                    · simp only [Option.some.injEq, Prod.mk.injEq] at h
                      rw [← h.2]; simp only [List.length_cons, List.length_drop]; omega
                    · simp at h
                  · cases hm : scanNumber (c :: rest) with
                    | none => simp [hm] at h
                    | some p =>
                      obtain ⟨t, r2⟩ := p
                      rw [hm] at h
                      simp only [Option.some.injEq, Prod.mk.injEq] at h
                      have := scanNumber_length _ _ _ hm
                      rw [← h.2]; exact this
    · intro d s vs r h
      rw [parseElems] at h
      cases hv : parseValue f d s with
      | none => simp [hv] at h
      | some p =>
        obtain ⟨v, rest⟩ := p
        rw [hv] at h
        simp only at h
        have h1 := ihv _ _ _ _ hv
        have hws := skipWS_length rest
        split at h
        · simp at h
        · rename_i d2 rest2 heq
          rw [heq] at hws
          split at h
          · simp only [Option.some.injEq, Prod.mk.injEq] at h
            rw [← h.2]; simp only [List.length_cons] at hws ⊢; omega
          · split at h
            · cases hm : parseElems f d (skipWS rest2) with
              | none => simp [hm] at h
              | some p =>
                obtain ⟨ms, r2⟩ := p
                rw [hm] at h
                simp only [Option.some.injEq, Prod.mk.injEq] at h
                have := ihe _ _ _ _ hm
                have := skipWS_length rest2
                rw [← h.2]; simp only [List.length_cons] at hws ⊢; omega
            · simp at h
    · intro d s ms r h
      cases s with
      | nil => simp [parseMembers] at h
      | cons q rest =>
        rw [parseMembers] at h
        split at h
        · cases hk : scanString rest with
          | none => simp [hk] at h
          | some p =>
            obtain ⟨key, rest2⟩ := p
            rw [hk] at h
            simp only at h
            have h1 := scanString_length _ _ _ _ (le_refl _) hk
            have hws := skipWS_length rest2
            split at h
            · simp at h
            · rename_i colon rest3 heq
              rw [heq] at hws
              split at h
              · cases hv : parseValue f d (skipWS rest3) with
                | none => simp [hv] at h
                | some p =>
                  obtain ⟨v, rest4⟩ := p
                  rw [hv] at h
                  simp only at h
                  have h2 := ihv _ _ _ _ hv
                  have hws3 := skipWS_length rest3
                  have hws4 := skipWS_length rest4
                  split at h
                  · simp at h
                  · rename_i d2 rest5 heq2
                    rw [heq2] at hws4
                    split at h
                    · simp only [Option.some.injEq, Prod.mk.injEq] at h
                      rw [← h.2]; simp only [List.length_cons] at hws hws4 ⊢; omega
                    · split at h
                      · cases hm : parseMembers f d (skipWS rest5) with
                        | none => simp [hm] at h
                        | some p =>
                          obtain ⟨ms2, r2⟩ := p
                          rw [hm] at h
                          simp only [Option.some.injEq, Prod.mk.injEq] at h
                          have := ihm _ _ _ _ hm
                          have := skipWS_length rest5
                          rw [← h.2]; simp only [List.length_cons] at hws hws4 ⊢; omega
                      · simp at h
              · simp at h
        · simp at h

theorem parser_fuel_step : ∀ f : Nat,
    (∀ d s, 2 * s.length + 1 ≤ f → parseValue (f + 1) d s = parseValue f d s)
      ∧ (∀ d s, 2 * s.length + 2 ≤ f → parseElems (f + 1) d s = parseElems f d s)
      ∧ (∀ d s, 2 * s.length + 2 ≤ f → parseMembers (f + 1) d s = parseMembers f d s) := by
  intro f
  induction f with
  | zero =>
    refine ⟨?_, ?_, ?_⟩ <;> intro d s h <;> omega
  | succ f ih =>
    obtain ⟨ihv, ihe, ihm⟩ := ih
    refine ⟨?_, ?_, ?_⟩
    · intro d s h
      cases s with
      | nil => simp [parseValue]
      | cons c rest =>
        conv_lhs => rw [parseValue]
        conv_rhs => rw [parseValue]
        have hws := skipWS_length rest
        cases hs : skipWS rest with
        | nil => rfl
        | cons d2 rest2 =>
          rw [hs] at hws
          simp only [List.length_cons] at h hws
          simp only
          rw [ihm (d + 1) (d2 :: rest2) (by simp only [List.length_cons]; omega),
            ihe (d + 1) (d2 :: rest2) (by simp only [List.length_cons]; omega)]
    · intro d s h
      conv_lhs => rw [parseElems]
      conv_rhs => rw [parseElems]
      rw [ihv d s (by omega)]
      cases hv : parseValue f d s with
      | none => rfl
      | some p =>
        obtain ⟨v, rest⟩ := p
        have h1 := (parser_shrinks f).1 _ _ _ _ hv
        have hws := skipWS_length rest
        simp only
        cases hs : skipWS rest with
        | nil => rfl
        | cons d2 rest2 =>
          rw [hs] at hws
          simp only [List.length_cons] at hws
          have := skipWS_length rest2
          simp only
          rw [ihe d (skipWS rest2) (by omega)]
    · intro d s h
      cases s with
      | nil => simp [parseMembers]
      | cons q rest =>
        conv_lhs => rw [parseMembers]
        conv_rhs => rw [parseMembers]
        simp only [List.length_cons] at h
        cases hk : scanString rest with
        | none => rfl
        | some p =>
          obtain ⟨key, rest2⟩ := p
          have h1 := scanString_length _ _ _ _ (le_refl _) hk
          have hws := skipWS_length rest2
          simp only
          cases hs : skipWS rest2 with
          | nil => rfl
          | cons colon rest3 =>
            rw [hs] at hws
            simp only [List.length_cons] at hws
            have hws3 := skipWS_length rest3
            simp only
            rw [ihv d (skipWS rest3) (by omega)]
            cases hv : parseValue f d (skipWS rest3) with
            | none => rfl
            | some p =>
              obtain ⟨v, rest4⟩ := p
              have h2 := (parser_shrinks f).1 _ _ _ _ hv
              have hws4 := skipWS_length rest4
              simp only
              cases hs4 : skipWS rest4 with
              | nil => rfl
              | cons d2 rest5 =>
                rw [hs4] at hws4
                simp only [List.length_cons] at hws4
                have := skipWS_length rest5
                simp only
                rw [ihm d (skipWS rest5) (by omega)]

/-- Fuel beyond twice the length of the text plus one never changes the result of
`parseValue`. -/
theorem parseValue_fuel_adequate (d : Nat) (s : GoString) (f k : Nat)
    (h : 2 * s.length + 1 ≤ f) : parseValue (f + k) d s = parseValue f d s := by
  induction k with
  | zero => rfl
  | succ k ih =>
    rw [← ih, ← Nat.add_assoc]
    exact (parser_fuel_step _).1 d s (by omega)

/-- The bound that `parseJSON` passes to `parseValue` is enough: a `none` of
`parseJSON` is a syntax error of the text, never an exhausted bound. -/
theorem parseJSON_fuel_adequate (data : GoString) (k : Nat) :
    parseValue (2 * data.length + 2 + k) 0 (skipWS data)
      = parseValue (2 * data.length + 2) 0 (skipWS data) :=
  parseValue_fuel_adequate 0 (skipWS data) _ k (by have := skipWS_length data; omega)

end FreeProxy
